import Mathlib

/-!
Verification development for the signalr-hub-client repository.

Shallow embedding of the core components, translated from the TypeScript
source:

* `Validation` — the recursive structural schema validator
  (src/builder/do-parameter-validation.ts).
* `Acquisition` — the per-address client acquisition protocol
  (src/builder/get-hub-client.ts together with the lock utility), modelled
  as a small-step machine over the cooperative (single-threaded,
  promise-based) execution model: each step is one synchronous segment
  between `await` suspension points.
* `Hub` — the `HubClient` listener/lifecycle state
  (the `HubClient` class: start, on/off, untilConnected, onClose).
* `Subjecting` — `ManagedSubject` creation and stop (HubClient.makeSubject).
* `Streaming` — the option-object variant of `HubClient.stream`.

JavaScript runtime values that the code inspects with `typeof` and
property access are embedded as the inductive type `Validation.JsValue`;
numbers are modelled as integers (no floating point behaviour is relied
on by any claim), and handler/listener functions are modelled by numeric
identifiers compared by reference equality, as in the source.
-/

namespace Validation

/-- A JavaScript runtime value as inspected by the validator: the model
covers the cases distinguished by the source via typeof checks,
Array.isArray and property access. -/
inductive JsValue where
  | jsUndefined
  | nullv
  | boolv (b : Bool)
  | numv (n : Int)
  | strv (s : String)
  | arrv (elems : List JsValue)
  | objv (fields : List (String × JsValue))

/-- The typeof operator on the modelled values (null and arrays are
"object" in JavaScript). -/
def jsTypeof : JsValue → String
  | .jsUndefined => "undefined"
  | .nullv => "object"
  | .boolv _ => "boolean"
  | .numv _ => "number"
  | .strv _ => "string"
  | .arrv _ => "object"
  | .objv _ => "object"

/-- Property access value[key] as used by doObjectValidation: on plain
objects the named own property (or undefined), on arrays the element at a
canonical numeric index string (JavaScript array index access), undefined
otherwise. -/
def getProp (value : JsValue) (key : String) : JsValue :=
  match value with
  | .objv fields =>
    match fields.find? (fun p => p.1 == key) with
    | some p => p.2
    | none => .jsUndefined
  | .arrv elems =>
    match (List.range elems.length).find? (fun i => toString i == key) with
    | some i => elems.getD i .jsUndefined
    | none => .jsUndefined
  | _ => .jsUndefined

/-- A schema node (a "shape"). Mirrors the runtime representation used by
the validator: the constructor tokens String/Number/Boolean, a
single-element array [inner], the tagged objects produced by Optional(...)
(with own properties _tag = 'Optional' and value = inner) and
CustomType(...) (own property _tag = 'CustomType'), and a structural
object mapping keys to sub-shapes. -/
inductive Shape where
  | strCtor
  | numCtor
  | boolCtor
  | listS (inner : Shape)
  | optionalS (inner : Shape)
  | customS
  | objS (fields : List (String × Shape))

/-- doCustomTypeValidation (do-parameter-validation.ts lines 123-146) in
the modelled configuration where options.typeCheckCustomType is not a
function (the default): the check matches exactly the CustomType-tagged
shapes (typeof shape is 'object', non-null, _tag = 'CustomType') and then
returns true at line 137 because no custom predicate is supplied. -/
def doCustomTypeValidation (shape : Shape) : Bool :=
  match shape with
  | .customS => true
  | _ => false

/-- doConstructorValidation (lines 45-56): switches on typeof value and
accepts iff the shape is the matching constructor token. Any value whose
typeof is not number/string/boolean falls into the default branch. -/
def doConstructorValidation (shape : Shape) (value : JsValue) : Bool :=
  match value with
  | .numv _ => (match shape with | .numCtor => true | _ => false)
  | .strv _ => (match shape with | .strCtor => true | _ => false)
  | .boolv _ => (match shape with | .boolCtor => true | _ => false)
  | _ => false

/-- doOptionalValidation (lines 84-100), parameterized by the recursive
validation hook dv. The shape must be a non-null object with
_tag = 'Optional': in the grammar that is exactly the optionalS node
(constructor tokens have typeof 'function'; arrays, CustomType objects and
structural objects do not carry the string 'Optional' at _tag). Value
undefined or null is accepted unconditionally, otherwise the inner shape
is checked. -/
def doOptionalValidation (dv : Shape → JsValue → Bool) (shape : Shape) (value : JsValue) :
    Bool :=
  match shape with
  | .optionalS inner =>
    match value with
    | .jsUndefined => true
    | .nullv => true
    | _ => dv inner value
  | _ => false

/-- doArrayValidation (lines 102-121), parameterized by the recursive
hook. The shape must be an array (only the listS node), the value must be
an array, and every element must satisfy the single inner shape. The
source guard `if (!subType) return false` cannot fire in the grammar: every
shape denotes a truthy JavaScript value (a constructor function, an array
or an object). -/
def doArrayValidation (dv : Shape → JsValue → Bool) (shape : Shape) (value : JsValue) :
    Bool :=
  match shape, value with
  | .listS inner, .arrv elems => elems.all (fun v => dv inner v)
  | _, _ => false

/-- doObjectValidation (lines 58-82), parameterized by the recursive hook.
The shape must have typeof 'object' and be non-null (all nodes except the
constructor tokens); the value must be a non-null object (arrays
included). Then `for (const key in shape)` checks every own enumerable key
of the shape against the corresponding value property:
* a structural object shape iterates its declared fields;
* an array shape [inner] has the single own enumerable key "0", so the
  check recurses into the inner shape at value["0"] — this is the
  fall-through taken when doArrayValidation has already failed;
* an Optional-tagged shape has own keys _tag (the string 'Optional') and
  value; validating any runtime value against the string 'Optional' as a
  shape fails every sub-check (a string is neither a tagged object, a
  constructor token, an array nor an object), so the loop always fails at
  the _tag key and the whole check is false;
* a CustomType-tagged shape fails the same way at its _tag key. -/
def doObjectValidation (dv : Shape → JsValue → Bool) (shape : Shape) (value : JsValue) :
    Bool :=
  match value with
  | .arrv _ | .objv _ =>
    match shape with
    | .objS fields => fields.all (fun p => dv p.2 (getProp value p.1))
    | .listS inner => dv inner (getProp value "0")
    | _ => false
  | _ => false

/-- doValidation (lines 30-43): the ordered sub-checks, first match wins.
The source recursion always descends into structurally smaller shapes; the
fuel argument makes the recursion structural in Lean, and any fuel at
least the nesting depth of the shape yields the source behaviour
(doValidation_mono below lets a result obtained at some fuel be
transported upward). -/
def doValidation : Nat → Shape → JsValue → Bool
  | 0, _, _ => false
  | Nat.succ f, shape, value =>
    doCustomTypeValidation shape ||
    doOptionalValidation (doValidation f) shape value ||
    doConstructorValidation shape value ||
    doArrayValidation (doValidation f) shape value ||
    doObjectValidation (doValidation f) shape value

/-- Acceptance is stable under extra fuel: a value accepted at some fuel is
accepted at any larger fuel, so results obtained at adequate fuel are the
results of the (terminating) source recursion. -/
theorem doValidation_mono :
    ∀ (f f' : Nat) (shape : Shape) (value : JsValue), f ≤ f' →
      doValidation f shape value = true → doValidation f' shape value = true := by
  intro f
  induction f with
  | zero => intro f' shape value _ h; simp [doValidation] at h
  | succ f ih =>
    intro f' shape value hle h
    obtain ⟨f'', rfl⟩ : ∃ f'', f' = f'' + 1 := ⟨f' - 1, by omega⟩
    have hff : f ≤ f'' := by omega
    simp only [doValidation, Bool.or_eq_true] at h ⊢
    rcases h with ((((h | h) | h) | h) | h)
    · exact Or.inl (Or.inl (Or.inl (Or.inl h)))
    · refine Or.inl (Or.inl (Or.inl (Or.inr ?_)))
      unfold doOptionalValidation at h ⊢
      cases shape with
      | optionalS inner =>
        cases value with
        | jsUndefined => simp
        | nullv => simp
        | boolv b => exact ih f'' inner _ hff h
        | numv n => exact ih f'' inner _ hff h
        | strv s => exact ih f'' inner _ hff h
        | arrv es => exact ih f'' inner _ hff h
        | objv fs => exact ih f'' inner _ hff h
      | strCtor => simp at h
      | numCtor => simp at h
      | boolCtor => simp at h
      | listS inner => simp at h
      | customS => simp at h
      | objS fields => simp at h
    · exact Or.inl (Or.inl (Or.inr h))
    · refine Or.inl (Or.inr ?_)
      unfold doArrayValidation at h ⊢
      cases shape with
      | listS inner =>
        cases value with
        | arrv elems =>
          simp only [List.all_eq_true] at h ⊢
          intro v hv
          exact ih f'' inner v hff (h v hv)
        | jsUndefined => simp at h
        | nullv => simp at h
        | boolv b => simp at h
        | numv n => simp at h
        | strv s => simp at h
        | objv fs => simp at h
      | strCtor => simp at h
      | numCtor => simp at h
      | boolCtor => simp at h
      | optionalS inner => simp at h
      | customS => simp at h
      | objS fields => simp at h
    · refine Or.inr ?_
      unfold doObjectValidation at h ⊢
      cases value with
      | arrv es =>
        cases shape with
        | objS fields =>
          simp only [List.all_eq_true] at h ⊢
          intro p hp
          exact ih f'' p.2 _ hff (h p hp)
        | listS inner => exact ih f'' inner _ hff h
        | strCtor => simp at h
        | numCtor => simp at h
        | boolCtor => simp at h
        | optionalS inner => simp at h
        | customS => simp at h
      | objv fs =>
        cases shape with
        | objS fields =>
          simp only [List.all_eq_true] at h ⊢
          intro p hp
          exact ih f'' p.2 _ hff (h p hp)
        | listS inner => exact ih f'' inner _ hff h
        | strCtor => simp at h
        | numCtor => simp at h
        | boolCtor => simp at h
        | optionalS inner => simp at h
        | customS => simp at h
      | jsUndefined => simp at h
      | nullv => simp at h
      | boolv b => simp at h
      | numv n => simp at h
      | strv s => simp at h

end Validation

/-- C6: the claim states that a single-element list shape accepts exactly
arrays whose every element satisfies the inner shape, and quotes the
spec's own test that validate([String], ["x",5]) fails. The code accepts
that value: doArrayValidation rejects it (the element 5 is not a string),
but execution falls through to doObjectValidation, which iterates the own
enumerable keys of the shape array [String] — just the key "0" — and
accepts because value["0"] = "x" satisfies String. The same fall-through
also accepts the non-array object with property "0" = "x" against the
list shape [String]. Any fuel of at least 2 settles both evaluations. -/
theorem C6_list_shape_fallthrough_accepts :
    Validation.doValidation 2 (Validation.Shape.listS Validation.Shape.strCtor)
      (Validation.JsValue.arrv [Validation.JsValue.strv "x", Validation.JsValue.numv 5])
      = true ∧
    Validation.doValidation 2 (Validation.Shape.listS Validation.Shape.strCtor)
      (Validation.JsValue.objv [("0", Validation.JsValue.strv "x")]) = true ∧
    Validation.doValidation 2 (Validation.Shape.strCtor) (Validation.JsValue.numv 5)
      = false := by
  refine ⟨?_, ?_, ?_⟩ <;>
    · simp only [Validation.doValidation, Validation.doCustomTypeValidation,
        Validation.doOptionalValidation, Validation.doConstructorValidation,
        Validation.doArrayValidation, Validation.doObjectValidation, Validation.getProp]
      decide

namespace Subjecting

/-- The registry owned by a HubClient for its managed subjects. The field
_subjectIdMap is declared as a Map, so it carries both an entry table
(read and written by the Map methods get/set/delete) and, like every
JavaScript object, plain own properties. Both sides are modelled because
makeSubject writes one and stop reads the other. -/
structure SubjectRegistry where
  entries : List Nat := []
  props : List Nat := []
deriving DecidableEq

/-- The per-subject state captured by the closure built in makeSubject:
the allocated id and the _stopped flag. -/
structure MSubject where
  id : Nat
  stopped : Bool := false
deriving DecidableEq

/-- HubClient.makeSubject (hub-client source lines 733-783): increments the
static SubjectId counter, builds the subject with _stopped = false, and
stores it with the line 781 statement map[id] = _subject — under a
ts-ignore this assigns a plain own property on the Map object instead of
calling Map.set, so the Map's entry table stays empty. Returns the
subject, the updated registry and the new counter value. -/
def makeSubject (reg : SubjectRegistry) (counter : Nat) : MSubject × SubjectRegistry × Nat :=
  let id := counter + 1
  (⟨id, false⟩, { reg with props := reg.props ++ [id] }, id)

/-- The subject's next method (lines 744-750): throws once stopped,
otherwise forwards to the wrapped signalr subject (modelled as ok). -/
def subjectNext (sub : MSubject) : Except String Unit :=
  if sub.stopped then .error "Subject has stopped" else .ok ()

/-- The subject's stop method (lines 764-777): returns false when already
stopped; otherwise sets _stopped, invokes the optional onStop hook (none
is installed by default, so no call is modelled), performs map.delete(id)
— a Map-entry deletion, which never sees the property written by line 781
— and returns true. -/
def subjectStop (sub : MSubject) (reg : SubjectRegistry) :
    Bool × MSubject × SubjectRegistry :=
  if sub.stopped then (false, sub, reg)
  else (true, { sub with stopped := true }, { reg with entries := reg.entries.erase sub.id })

/-- Whether the owning registry still references the subject id through
either its entry table or its own properties. -/
def registryAssociates (reg : SubjectRegistry) (id : Nat) : Bool :=
  reg.entries.contains id || reg.props.contains id

/-- The run used by C5: a fresh client (counter 0, empty registry),
one makeSubject, then stop twice. -/
def c5make : MSubject × SubjectRegistry × Nat := makeSubject ⟨[], []⟩ 0

/-- First stop of the C5 subject. -/
def c5stop1 : Bool × MSubject × SubjectRegistry := subjectStop c5make.1 c5make.2.1

/-- Second stop of the C5 subject. -/
def c5stop2 : Bool × MSubject × SubjectRegistry := subjectStop c5stop1.2.1 c5stop1.2.2

end Subjecting

/-- C5: the parts about the subject itself hold — stop returns true then
false, isStopped is permanently true and next throws "Subject has stopped"
— but the registry part fails: makeSubject stored the subject as a plain
property (map[id] = _subject) rather than a Map entry, so the Map-entry
deletion in stop removes nothing and the registry still associates id 1
with the subject after stop, contradicting the claim that the first stop
removes the subject's id from the owning registry. -/
theorem C5_stop_leaves_registry_association :
    Subjecting.c5stop1.1 = true ∧
    Subjecting.c5stop2.1 = false ∧
    Subjecting.c5stop1.2.1.stopped = true ∧
    Subjecting.c5stop2.2.1.stopped = true ∧
    Subjecting.subjectNext Subjecting.c5stop1.2.1 = .error "Subject has stopped" ∧
    Subjecting.c5make.2.1.entries = [] ∧
    Subjecting.c5stop1.2.2.props = [1] ∧
    Subjecting.registryAssociates Subjecting.c5stop1.2.2 1 = true := by
  refine ⟨rfl, rfl, rfl, rfl, rfl, rfl, rfl, rfl⟩

namespace Streaming

/-- The runtime value found at the args property of the stream options
object, as far as the option-variant of HubClient.stream inspects it:
absent (so the destructuring default [] applies), null, a primitive, an
array (arrays implement Symbol.iterator), or another object with or
without Symbol.iterator. -/
inductive ArgsVal where
  | undefinedA
  | nullA
  | boolA (b : Bool)
  | numA (n : Int)
  | strA (s : String)
  | arrA (count : Nat)
  | objA (hasIterator : Bool)
deriving DecidableEq

/-- The option object accepted by stream (src/stream-options.ts): the
method name (none models an absent property), the argument list, and the
presence of each of the next/error/complete handlers. -/
structure StreamOpts where
  method : Option String := none
  args : ArgsVal := .undefinedA
  next : Bool := false
  error : Bool := false
  complete : Bool := false
deriving DecidableEq

/-- The subscription created at hub-client source lines 612-618: the
transport's stream is invoked with the method and arguments and subscribed
with exactly the supplied handlers; the result is the disposer returned to
the caller. -/
structure Disposer where
  method : String
  next : Bool
  error : Bool
  complete : Bool
deriving DecidableEq

/-- typeof args === 'object' and args !== null (line 604). -/
def argsIsObject : ArgsVal → Bool
  | .arrA _ => true
  | .objA _ => true
  | _ => false

/-- Symbol.iterator in args (line 608). -/
def argsHasIterator : ArgsVal → Bool
  | .arrA _ => true
  | .objA it => it
  | _ => false

/-- The option-object branch of HubClient.stream (lines 594-621). The
checks run synchronously and in source order before the transport is
contacted: no handler at all; a falsy method (absent or the empty
string); args (after the destructuring default []) not a non-null object;
args without Symbol.iterator. Only when every check passes is
connection.stream called and subscribed, which the ok result models. -/
def streamWithOptions (o : StreamOpts) : Except String Disposer :=
  let args := match o.args with | .undefinedA => ArgsVal.arrA 0 | a => a
  if !o.error && !o.next && !o.complete then .error "No handler is set"
  else
    match o.method with
    | none => .error "Method is not given"
    | some m =>
      if m == "" then .error "Method is not given"
      else if !(argsIsObject args) then
        .error ("The arguments for Method(" ++ m ++ ") were not an object")
      else if !(argsHasIterator args) then
        .error ("The arguments for Method(" ++ m ++ ") were not iterable")
      else .ok ⟨m, o.next, o.error, o.complete⟩

end Streaming

/-- C8 counterexample: with a next handler, a method name and an empty
argument array, the option-object stream variant does not throw — it
subscribes and returns the disposer — although the claim states that an
argument list that is not a non-empty iterable produces a synchronous
error. Emptiness is never checked by the source. -/
theorem C8_empty_args_accepted :
    Streaming.streamWithOptions
        { method := some "m", args := .arrA 0, next := true } =
      .ok ⟨"m", true, false, false⟩ := by
  rfl

/-- C8 amended: the option-object stream variant fails synchronously,
before contacting the transport, exactly when no handler is supplied, or
the method name is absent or empty, or the argument list (after the
default empty array for an absent property) is not a non-null object, or
it lacks Symbol.iterator — emptiness is not required; and in the
remaining cases it subscribes exactly the supplied handlers on the named
method and returns the disposer. -/
theorem C8_stream_options_characterization (o : Streaming.StreamOpts) :
    ((∃ d, Streaming.streamWithOptions o = Except.ok d) ↔
      ((o.next || o.error || o.complete) = true ∧
        (∃ m, o.method = some m ∧ m ≠ "") ∧
        Streaming.argsIsObject
          (match o.args with | .undefinedA => Streaming.ArgsVal.arrA 0 | a => a) = true ∧
        Streaming.argsHasIterator
          (match o.args with | .undefinedA => Streaming.ArgsVal.arrA 0 | a => a) = true)) ∧
    (∀ d, Streaming.streamWithOptions o = Except.ok d →
      o.method = some d.method ∧ d.next = o.next ∧ d.error = o.error ∧
        d.complete = o.complete) := by
  obtain ⟨m, args, n, e, c⟩ := o
  constructor
  · cases m with
    | none =>
      simp only [Streaming.streamWithOptions]
      constructor
      · intro ⟨d, hd⟩
        split at hd <;> simp at hd
      · rintro ⟨-, ⟨m, hm, -⟩, -⟩
        simp at hm
    | some s =>
      by_cases hs : s = "" <;>
        cases args <;> cases n <;> cases e <;> cases c <;>
          simp_all [Streaming.streamWithOptions, Streaming.argsIsObject,
            Streaming.argsHasIterator] <;>
        (rename_i it
         cases it <;> simp_all)
  · intro d hd
    simp only [Streaming.streamWithOptions] at hd
    split at hd
    · simp at hd
    · split at hd
      · simp at hd
      · split at hd
        · simp at hd
        · split at hd
          · simp at hd
          · split at hd
            · simp at hd
            · injection hd with h
              subst h
              simp_all

/-- Concrete instantiation of the C8 characterization: for a call with an
error handler, method name and a two-element argument array, the theorem
yields the subscribed disposer's contents. -/
theorem C8_stream_options_characterization_witness :
    (Streaming.streamWithOptions
        { method := some "mth", args := .arrA 2, error := true } =
      Except.ok ⟨"mth", false, true, false⟩) ∧
    (some "mth" : Option String) = some (Streaming.Disposer.method ⟨"mth", false, true, false⟩) := by
  have h := (C8_stream_options_characterization
    { method := some "mth", args := .arrA 2, error := true }).2
    ⟨"mth", false, true, false⟩ (by rfl)
  exact ⟨by rfl, h.1⟩

namespace Hub

/-- The transport connection states (@microsoft/signalr
HubConnectionState). -/
inductive HState where
  | disconnected
  | connecting
  | connected
  | reconnecting
deriving DecidableEq

/-- The underlying transport connection, at the interface boundary the
source relies on: its state, its connection id and its own method-handler
registry (written by connection.on/off). Handlers are identified by
numbers and compared by reference equality, as in the source. -/
structure ConnModel where
  state : HState
  cid : String
  handlers : List (String × List Nat) := []
deriving DecidableEq

/-- A connect listener: either an ordinary handler (registered by client
code through addConnectListener) or the self-unregistering closure
_untilConnectConnectListener created by untilConnected, tagged with the id
of the promise it resolves. -/
inductive CL where
  | plain (n : Nat)
  | promiseL (pid : Nat)
deriving DecidableEq

/-- The HubClient instance state (hub-client source lines 89-106), plus
two instrumentation fields: built counts how many transport connection
objects have been constructed (line 199), and resolvedConnects records
each untilConnected promise resolution with the connection id it received
(line 258). Lazily allocated listener arrays are Option lists: none means
the field was never assigned. -/
structure HubClient where
  initialized : Bool := false
  currentState : HState := .disconnected
  connection : Option ConnModel := none
  errorListeners : Option (List Nat) := none
  closeListeners : Option (List Nat) := none
  reconnectListeners : Option (List Nat) := none
  connectListeners : Option (List CL) := none
  connectionListeners : Option (List Nat) := none
  methods : Option (List (String × List Nat)) := none
  pendingMethods : Option (List (String × List Nat)) := none
  built : Nat := 0
  resolvedConnects : List (Nat × String) := []
deriving DecidableEq

/-- Map.get on a string-keyed JavaScript Map modelled as an
insertion-ordered association list with unique keys: the first entry with
the key, if any. -/
def mapGet : List (String × List Nat) → String → Option (List Nat)
  | [], _ => none
  | p :: rest, k => if p.1 == k then some p.2 else mapGet rest k

/-- Map.has. -/
def mapHas (m : List (String × List Nat)) (k : String) : Bool :=
  (mapGet m k).isSome

/-- Map.get(k)!.push(h): the array stored at the key grows in place. -/
def mapPush (m : List (String × List Nat)) (k : String) (h : Nat) :
    List (String × List Nat) :=
  m.map (fun p => if p.1 == k then (p.1, p.2 ++ [h]) else p)

/-- Map.set(k, v) on a key already present, updating its array. -/
def mapSet (m : List (String × List Nat)) (k : String) (v : List Nat) :
    List (String × List Nat) :=
  m.map (fun p => if p.1 == k then (p.1, v) else p)

/-- The push-or-create pattern used by on() and the pending buffer: if the
key exists push onto its array, else Map.set(k, [h]). -/
def mapAdd (m : List (String × List Nat)) (k : String) (h : Nat) :
    List (String × List Nat) :=
  if mapHas m k then mapPush m k h else m ++ [(k, [h])]

/-- Map.delete(k). -/
def mapDelete (m : List (String × List Nat)) (k : String) :
    List (String × List Nat) :=
  m.filter (fun p => !(p.1 == k))

/-- The transport's connection.on (interface boundary): appends the
handler to the method's list, creating it when missing. -/
def connOn (conn : ConnModel) (name : String) (h : Nat) : ConnModel :=
  { conn with handlers := mapAdd conn.handlers name h }

/-- The transport's connection.off (interface boundary): with a handler,
removes its first occurrence and drops the entry when it empties; without
one, removes the whole entry; no-op when the method has no entry. -/
def connOff (conn : ConnModel) (name : String) (h : Option Nat) : ConnModel :=
  match mapGet conn.handlers name with
  | none => conn
  | some hs =>
    match h with
    | none => { conn with handlers := mapDelete conn.handlers name }
    | some hf =>
      if hf ∈ hs then
        let hs' := hs.erase hf
        if hs' = [] then { conn with handlers := mapDelete conn.handlers name }
        else { conn with handlers := mapSet conn.handlers name hs' }
      else conn

/-- HubClient.on (lines 673-702): with no connection yet, buffer the
handler in the pending registry (created on demand); with a connection,
record it in the active registry (created on demand) and register it on
the transport. -/
def hubOn (s : HubClient) (name : String) (h : Nat) : HubClient :=
  match s.connection with
  | none =>
    { s with pendingMethods := some (mapAdd (s.pendingMethods.getD []) name h) }
  | some conn =>
    { s with
      methods := some (mapAdd (s.methods.getD []) name h)
      connection := some (connOn conn name h) }

/-- HubClient.off (lines 713-731): forwards to connection.off when a
connection exists; then, in the active registry only: no registry — done;
no handler argument — delete the method's entry; otherwise remove the
first occurrence of the exact handler reference if present (the entry
stays even when emptied, matching splice). -/
def hubOff (s : HubClient) (name : String) (h : Option Nat) : HubClient :=
  let s1 :=
    match s.connection with
    | some conn => { s with connection := some (connOff conn name h) }
    | none => s
  match s1.methods with
  | none => s1
  | some m =>
    match h with
    | none => { s1 with methods := some (mapDelete m name) }
    | some hf =>
      match mapGet m name with
      | none => s1
      | some hs =>
        if hf ∈ hs then { s1 with methods := some (mapSet m name (hs.erase hf)) }
        else s1

/-- addErrorListener (lines 267-274): allocate the array on first use and
push. -/
def addErrorListener (s : HubClient) (n : Nat) : HubClient :=
  { s with errorListeners := some (s.errorListeners.getD [] ++ [n]) }

/-- removeErrorListener (lines 283-292): false when the array was never
allocated or the reference is absent; otherwise splice out its first
occurrence. -/
def removeErrorListener (s : HubClient) (n : Nat) : Bool × HubClient :=
  match s.errorListeners with
  | none => (false, s)
  | some el =>
    if n ∈ el then (true, { s with errorListeners := some (el.erase n) })
    else (false, s)

/-- addCloseListener (lines 298-305). -/
def addCloseListener (s : HubClient) (n : Nat) : HubClient :=
  { s with closeListeners := some (s.closeListeners.getD [] ++ [n]) }

/-- addConnectListener (lines 360-367). -/
def addConnectListener (s : HubClient) (l : CL) : HubClient :=
  { s with connectListeners := some (s.connectListeners.getD [] ++ [l]) }

/-- isConnected (lines 147-149). -/
def isConnected (s : HubClient) : Bool :=
  match s.connection with
  | some c => c.state == .connected
  | none => false

/-- connectionId (lines 112-114). -/
def connectionId (s : HubClient) : Option String :=
  s.connection.map (fun c => c.cid)

/-- untilConnected (lines 247-261): resolve immediately with the current
connection id when connected; otherwise register the self-unregistering
closure for the promise pid. The first component is some id when the
promise resolved immediately. -/
def untilConnected (s : HubClient) (pid : Nat) : Option String × HubClient :=
  if isConnected s then (connectionId s, s)
  else (none, addConnectListener s (.promiseL pid))

/-- The connect-listener notification at lines 208-210,
_connectListeners?.forEach(listener => listener(connectionId, false)),
with the listener bodies inlined: a plain listener runs without touching
the list; an untilConnected listener finds its own index (indexOf), splices
itself out and resolves its promise with the id (lines 252-259). forEach
visits position i while i is below the current length, so a removal at the
visited position shifts the remainder down while the loop still advances —
the element after a self-removing listener is skipped. The fuel only bounds
the iteration count; any fuel at least the initial length is enough because
every iteration increases i and never lengthens the list. -/
def fireConnect (cid : String) : Nat → Nat → List CL → List (Nat × String) →
    List CL × List (Nat × String)
  | 0, _, ls, acc => (ls, acc)
  | Nat.succ fuel, i, ls, acc =>
    if i < ls.length then
      match ls.getD i (.plain 0) with
      | .plain _ => fireConnect cid fuel (i + 1) ls acc
      | .promiseL pid =>
        fireConnect cid fuel (i + 1) (ls.erase (.promiseL pid)) (acc ++ [(pid, cid)])
    else (ls, acc)

/-- changeConnectionState (lines 840-851): with no connection listeners,
returns false before updating _currentState; otherwise notifies them (the
invocations are not recorded) and commits the new state. -/
def changeConnectionState (s : HubClient) (st : HState) : Bool × HubClient :=
  match s.connectionListeners with
  | none => (false, s)
  | some _ => (true, { s with currentState := st })

/-- onClose (lines 785-806) with the closing error modelled as an optional
number: when the error-listener array exists (even if emptied), every
error listener and then every close listener receives the close argument;
when it was never allocated, the close listeners are invoked with
undefined. Returns the ordered invocation list (listener id, argument) and
the updated state (state change to Disconnected, _initialized reset). -/
def onClose (s : HubClient) (e : Option Nat) : List (Nat × Option Nat) × HubClient :=
  let calls :=
    match s.errorListeners with
    | some el =>
      el.map (fun n => (n, e)) ++
        (match s.closeListeners with
         | some cl => cl.map (fun n => (n, e))
         | none => [])
    | none =>
      match s.closeListeners with
      | some cl => cl.map (fun n => (n, (none : Option Nat)))
      | none => []
  let s1 := (changeConnectionState s .disconnected).2
  (calls, { s1 with initialized := false })

/-- The pending-replay inner loop of start (lines 213-217): handlers of
one method name are re-registered in order through this.on. -/
def replayOne (s : HubClient) (key : String) : List Nat → HubClient
  | [] => s
  | h :: rest => replayOne (hubOn s key h) key rest

/-- The pending-replay outer loop of start (lines 212-220): every buffered
entry is replayed through this.on (the connection exists by then, so on
only touches the active registry and the transport), after which the
pending registry is cleared. -/
def replayAll (s : HubClient) : List (String × List Nat) → HubClient
  | [] => { s with pendingMethods := none }
  | (k, hs) :: rest => replayAll (replayOne s k hs) rest

/-- HubClient.start (lines 158-223) in the run where the transport start
succeeds and the server assigns the connection id cid. Faithful to the
source: if _initialized is set, return false at once; otherwise build a
fresh transport connection (counted by built), await its start — after
which its state is Connected — then notify the connect listeners through
the forEach of lines 208-210, then replay and clear the pending registry.
The source never sets _initialized on this path. -/
def start (s : HubClient) (cid : String) : Bool × HubClient :=
  if s.initialized then (false, s)
  else
    let conn0 : ConnModel := { state := .connected, cid := cid, handlers := [] }
    let s1 := { s with connection := some conn0, built := s.built + 1 }
    let s2 :=
      match s1.connectListeners with
      | none => s1
      | some ls =>
        let fr := fireConnect cid ls.length 0 ls []
        { s1 with
          connectListeners := some fr.1
          resolvedConnects := s1.resolvedConnects ++ fr.2 }
    let s3 :=
      match s2.pendingMethods with
      | none => s2
      | some pm => replayAll s2 pm
    (true, s3)

/-- HubClient.stop (lines 229-241): with a connection, stop it, clear the
field and reset _initialized, returning true; otherwise false. -/
def stop (s : HubClient) : Bool × HubClient :=
  match s.connection with
  | some _ => (true, { s with connection := none, initialized := false })
  | none => (false, s)

/-- The handlers registered on the live connection for a method name. -/
def handlersAt (s : HubClient) (name : String) : List Nat :=
  match s.connection with
  | some c => (mapGet c.handlers name).getD []
  | none => []

/-- The handlers buffered in the pending registry for a method name. -/
def pendingAt (s : HubClient) (name : String) : List Nat :=
  (mapGet (s.pendingMethods.getD []) name).getD []

end Hub

namespace Hub

/-- First start on a fresh client (C2 run). -/
def c2start1 : Bool × HubClient := start {} "cid-1"

/-- Second start, issued after the first one completed successfully with
no stop or close in between (C2 run). -/
def c2start2 : Bool × HubClient := start c2start1.2 "cid-2"

/-- First untilConnected call before any connection (C7 run). -/
def c7u1 : Option String × HubClient := untilConnected {} 1

/-- Second concurrent untilConnected call (C7 run). -/
def c7u2 : Option String × HubClient := untilConnected c7u1.2 2

/-- The successful start that fires the connect listeners (C7 run). -/
def c7fire : Bool × HubClient := start c7u2.2 "abc"

/-- An untilConnected call issued after the connection is up (C7 run). -/
def c7u3 : Option String × HubClient := untilConnected c7fire.2 3

/-- The C9 counterexample state: an error listener is added and then
removed again, and one close listener is registered, so at close time no
error listener is registered but the error-listener array exists. -/
def c9state : HubClient :=
  (removeErrorListener (addCloseListener (addErrorListener {} 10) 20) 10).2

end Hub

/-- C2: the second start is not a no-op. After a successful start (which
returns true but, faithfully to the source, never sets _initialized), a
second start call again takes the full path: it builds and starts a second
underlying connection (built goes to 2) and returns true, while the claim
— and the method's own documentation — says it returns false and builds
nothing. -/
theorem C2_second_start_builds_second_connection :
    Hub.c2start1.1 = true ∧
    Hub.c2start1.2.built = 1 ∧
    Hub.c2start1.2.initialized = false ∧
    Hub.c2start2.1 = true ∧
    Hub.c2start2.2.built = 2 := by
  exact ⟨rfl, rfl, rfl, rfl, rfl⟩

/-- C7: with two untilConnected promises pending, the first connect event
resolves only the first one. Its listener splices itself out of
_connectListeners during the forEach, shifting the second listener into
the visited slot, so the loop skips it: afterwards the second promise is
unresolved and its listener is still registered, contradicting the claim
that each pending call resolves on the first connect event. A call made
after the connection is up does resolve immediately with the connection
id. -/
theorem C7_second_pending_untilConnected_not_resolved :
    Hub.c7u1.1 = none ∧
    Hub.c7u2.1 = none ∧
    Hub.c7fire.1 = true ∧
    Hub.c7fire.2.resolvedConnects = [(1, "abc")] ∧
    Hub.c7fire.2.connectListeners = some [Hub.CL.promiseL 2] ∧
    Hub.c7u3.1 = some "abc" := by
  exact ⟨rfl, rfl, rfl, rfl, rfl, rfl⟩

/-- C9 counterexample: after adding and removing an error listener, no
error listener is registered (the array exists but is empty), yet a close
with an error delivers that error to the close listeners — the claim says
they would be invoked with undefined whenever no error listener is
registered. -/
theorem C9_close_error_reaches_close_without_error_listener :
    Hub.c9state.errorListeners = some [] ∧
    (Hub.onClose Hub.c9state (some 7)).1 = [(20, some 7)] := by
  exact ⟨rfl, rfl⟩

/-- C9 amended: the close error is forwarded to the close listeners iff
the error-listener array has been allocated, that is, addErrorListener was
called at least once — even when every error listener has since been
removed; in that case every (currently registered) error listener and then
every close listener receives the error, in registration order. Only when
the array was never allocated are the close listeners invoked with
undefined. -/
theorem C9_close_error_delivery (s : Hub.HubClient) (e : Nat) :
    (∀ el, s.errorListeners = some el →
      (Hub.onClose s (some e)).1 =
        el.map (fun n => (n, some e)) ++
          (s.closeListeners.getD []).map (fun n => (n, some e))) ∧
    (s.errorListeners = none →
      (Hub.onClose s (some e)).1 =
        (s.closeListeners.getD []).map (fun n => (n, (none : Option Nat)))) := by
  constructor
  · intro el hel
    simp only [Hub.onClose, hel]
    cases s.closeListeners <;> simp
  · intro hel
    simp only [Hub.onClose, hel]
    cases s.closeListeners <;> simp

/-- Concrete instantiation of the C9 delivery theorem with one error
listener and one close listener. -/
theorem C9_close_error_delivery_witness :
    (Hub.onClose
        { errorListeners := some [3], closeListeners := some [4] }
        (some 5)).1 = [(3, some 5), (4, some 5)] := by
  have h := (C9_close_error_delivery
    { errorListeners := some [3], closeListeners := some [4] } 5).1 [3] rfl
  exact h.trans (by rfl)

namespace Hub

/-- mapGet across an append: the left map wins when it has the key. -/
theorem mapGet_append (m₁ m₂ : List (String × List Nat)) (k : String) :
    mapGet (m₁ ++ m₂) k =
      match mapGet m₁ k with
      | some v => some v
      | none => mapGet m₂ k := by
  induction m₁ with
  | nil => simp [mapGet]
  | cons p rest ih =>
    cases hpk : (p.1 == k) <;> simp [mapGet, hpk, ih]

/-- mapGet after mapPush: only the pushed key's array changes, gaining the
handler at the end. -/
theorem mapGet_mapPush (m : List (String × List Nat)) (k : String) (h : Nat)
    (n : String) :
    mapGet (mapPush m k h) n =
      if n = k then (mapGet m n).map (fun v => v ++ [h]) else mapGet m n := by
  induction m with
  | nil => simp [mapGet, mapPush]
  | cons p rest ih =>
    obtain ⟨k₀, v₀⟩ := p
    simp only [mapPush, List.map_cons] at ih ⊢
    by_cases h1 : k₀ = k <;> by_cases h2 : k₀ = n <;>
      simp_all [mapGet, beq_iff_eq]
    simp [h1, Ne.symm h2]

/-- The handler just added by mapAdd is present at its key. -/
theorem mapGet_mapAdd_self (m : List (String × List Nat)) (k : String) (h : Nat) :
    ∃ v, mapGet (mapAdd m k h) k = some v ∧ h ∈ v := by
  unfold mapAdd
  by_cases hh : mapHas m k = true
  · rw [if_pos hh, mapGet_mapPush]
    unfold mapHas at hh
    obtain ⟨v, hv⟩ := Option.isSome_iff_exists.mp hh
    exact ⟨v ++ [h], by simp [hv], by simp⟩
  · have hg : mapGet m k = none := by
      unfold mapHas at hh
      simpa using hh
    rw [if_neg hh, mapGet_append]
    simp only [hg]
    exact ⟨[h], by simp [mapGet], by simp⟩

/-- mapAdd never loses a handler present at any key. -/
theorem mapGet_mapAdd_mono (m : List (String × List Nat)) (k : String) (h : Nat)
    (n : String) (x : Nat) (hx : x ∈ (mapGet m n).getD []) :
    x ∈ (mapGet (mapAdd m k h) n).getD [] := by
  unfold mapAdd
  by_cases hh : mapHas m k
  · rw [if_pos hh, mapGet_mapPush]
    by_cases hnk : n = k
    · subst hnk
      cases hg : mapGet m n with
      | none => simp [hg] at hx
      | some v =>
        rw [hg] at hx
        simp [hg]
        exact Or.inl (by simpa using hx)
    · simpa [hnk] using hx
  · rw [if_neg hh, mapGet_append]
    cases hg : mapGet m n with
    | none => simp [hg] at hx
    | some v => simpa [hg] using hx

/-- on() with a live connection keeps the connection live. -/
theorem hubOn_connection_isSome (s : HubClient) (name : String) (h : Nat)
    (hc : s.connection.isSome = true) : (hubOn s name h).connection.isSome = true := by
  obtain ⟨c, hcc⟩ := Option.isSome_iff_exists.mp hc
  simp [hubOn, hcc]

/-- on() with a live connection registers the handler on the transport for
that method. -/
theorem handlersAt_hubOn_self (s : HubClient) (name : String) (h : Nat)
    (hc : s.connection.isSome = true) : h ∈ handlersAt (hubOn s name h) name := by
  obtain ⟨c, hcc⟩ := Option.isSome_iff_exists.mp hc
  obtain ⟨v, hv, hmem⟩ := mapGet_mapAdd_self c.handlers name h
  simp [hubOn, hcc, handlersAt, connOn, hv, hmem]

/-- on() never removes a handler already registered on the transport. -/
theorem handlersAt_hubOn_mono (s : HubClient) (name : String) (h : Nat)
    (n : String) (x : Nat) (hx : x ∈ handlersAt s n) :
    x ∈ handlersAt (hubOn s name h) n := by
  cases hcc : s.connection with
  | none => simp [handlersAt, hcc] at hx
  | some c =>
    rw [handlersAt, hcc] at hx
    simpa [hubOn, hcc, handlersAt, connOn] using
      mapGet_mapAdd_mono c.handlers name h n x hx

/-- The inner replay loop keeps the connection live. -/
theorem replayOne_connection_isSome (key : String) (hs : List Nat) (s : HubClient)
    (hc : s.connection.isSome = true) :
    (replayOne s key hs).connection.isSome = true := by
  induction hs generalizing s with
  | nil => simpa [replayOne] using hc
  | cons h rest ih => exact ih _ (hubOn_connection_isSome s key h hc)

/-- The inner replay loop never removes a registered transport handler. -/
theorem replayOne_handlersAt_mono (key : String) (hs : List Nat) (s : HubClient)
    (n : String) (x : Nat) (hx : x ∈ handlersAt s n) :
    x ∈ handlersAt (replayOne s key hs) n := by
  induction hs generalizing s with
  | nil => simpa [replayOne] using hx
  | cons h rest ih => exact ih _ (handlersAt_hubOn_mono s key h n x hx)

/-- The inner replay loop registers every handler it replays on the
transport for its method. -/
theorem replayOne_handlersAt_self (key : String) (hs : List Nat) (s : HubClient)
    (h : Nat) (hc : s.connection.isSome = true) (hh : h ∈ hs) :
    h ∈ handlersAt (replayOne s key hs) key := by
  induction hs generalizing s with
  | nil => cases hh
  | cons h₀ rest ih =>
    rcases List.mem_cons.mp hh with rfl | hmem
    · exact replayOne_handlersAt_mono key rest (hubOn s key h) key h
        (handlersAt_hubOn_self s key h hc)
    · exact ih _ (hubOn_connection_isSome s key h₀ hc) hmem

/-- The outer replay loop never removes a registered transport handler. -/
theorem replayAll_handlersAt_mono (pm : List (String × List Nat)) (s : HubClient)
    (n : String) (x : Nat) (hx : x ∈ handlersAt s n) :
    x ∈ handlersAt (replayAll s pm) n := by
  induction pm generalizing s with
  | nil => simpa [replayAll, handlersAt] using hx
  | cons p rest ih =>
    obtain ⟨k, hs⟩ := p
    exact ih _ (replayOne_handlersAt_mono k hs s n x hx)

/-- Replaying a pending registry registers every buffered handler on the
transport for its method. -/
theorem replayAll_registers (pm : List (String × List Nat)) (s : HubClient)
    (name : String) (h : Nat) (hc : s.connection.isSome = true)
    (hh : h ∈ (mapGet pm name).getD []) :
    h ∈ handlersAt (replayAll s pm) name := by
  induction pm generalizing s with
  | nil => simp [mapGet] at hh
  | cons p rest ih =>
    obtain ⟨k, hs⟩ := p
    by_cases hk : k = name
    · subst hk
      rw [mapGet, if_pos (by simp)] at hh
      simp only [Option.getD_some] at hh
      exact replayAll_handlersAt_mono rest _ k h
        (replayOne_handlersAt_self k hs s h hc hh)
    · rw [mapGet, if_neg (by simpa using hk)] at hh
      exact ih _ (replayOne_connection_isSome k hs s hc) hh

/-- off() never touches the pending registry, whatever the state and
arguments. -/
theorem hubOff_pendingMethods (s : HubClient) (name : String) (h : Option Nat) :
    (hubOff s name h).pendingMethods = s.pendingMethods := by
  unfold hubOff
  cases s.connection <;> cases s.methods <;> cases h <;>
    simp only [] <;>
    (repeat' split) <;> rfl

/-- off() never touches the connection field when there is no connection,
and never touches _initialized. -/
theorem hubOff_connection_none (s : HubClient) (name : String) (h : Option Nat)
    (hc : s.connection = none) : (hubOff s name h).connection = none := by
  unfold hubOff
  rw [hc]
  cases s.methods <;> cases h <;>
    simp only [] <;>
    (repeat' split) <;> (first | rfl | exact hc)

/-- off() leaves _initialized unchanged. -/
theorem hubOff_initialized (s : HubClient) (name : String) (h : Option Nat) :
    (hubOff s name h).initialized = s.initialized := by
  unfold hubOff
  cases s.connection <;> cases s.methods <;> cases h <;>
    simp only [] <;>
    (repeat' split) <;> rfl

end Hub

/-- C10: off() mutates only the active registry and the live connection.
A handler buffered in the pending registry by on() before any connection
exists survives any off() call — with or without the handler argument and
whatever the method name — and is replayed onto the connection at the next
successful start(): the pending registry is untouched by off() in every
state, the buffered handler is still there afterwards, and after start()
it is registered on the live connection for its method. -/
theorem C10_off_leaves_pending_buffer_intact (s : Hub.HubClient)
    (name name' : String) (h : Nat) (h' : Option Nat) (cid : String)
    (hconn : s.connection = none) (hinit : s.initialized = false) :
    (∀ t : Hub.HubClient, (Hub.hubOff t name' h').pendingMethods = t.pendingMethods) ∧
    h ∈ Hub.pendingAt (Hub.hubOn s name h) name ∧
    Hub.pendingAt (Hub.hubOff (Hub.hubOn s name h) name' h') name =
      Hub.pendingAt (Hub.hubOn s name h) name ∧
    h ∈ Hub.handlersAt (Hub.start (Hub.hubOff (Hub.hubOn s name h) name' h') cid).2 name := by
  have hs1pm : (Hub.hubOn s name h).pendingMethods =
      some (Hub.mapAdd (s.pendingMethods.getD []) name h) := by
    simp [Hub.hubOn, hconn]
  have hs1conn : (Hub.hubOn s name h).connection = none := by
    simp [Hub.hubOn, hconn]
  have hs1init : (Hub.hubOn s name h).initialized = false := by
    simp [Hub.hubOn, hconn, hinit]
  have h2pm := Hub.hubOff_pendingMethods (Hub.hubOn s name h) name' h'
  have h2conn := Hub.hubOff_connection_none (Hub.hubOn s name h) name' h' hs1conn
  have h2init : (Hub.hubOff (Hub.hubOn s name h) name' h').initialized = false :=
    (Hub.hubOff_initialized (Hub.hubOn s name h) name' h').trans hs1init
  have hpm2 : (Hub.hubOff (Hub.hubOn s name h) name' h').pendingMethods =
      some (Hub.mapAdd (s.pendingMethods.getD []) name h) := h2pm.trans hs1pm
  obtain ⟨v, hv, hm⟩ := Hub.mapGet_mapAdd_self (s.pendingMethods.getD []) name h
  refine ⟨fun t => Hub.hubOff_pendingMethods t name' h', ?_, ?_, ?_⟩
  · simp [Hub.pendingAt, hs1pm, hv, hm]
  · simp [Hub.pendingAt, h2pm]
  · unfold Hub.start
    rw [if_neg (by simp [h2init])]
    simp only []
    cases hcl : (Hub.hubOff (Hub.hubOn s name h) name' h').connectListeners with
    | none =>
      simp only [hcl, hpm2]
      exact Hub.replayAll_registers _ _ name h (by simp) (by simp [hv, hm])
    | some ls =>
      simp only [hcl, hpm2]
      exact Hub.replayAll_registers _ _ name h (by simp) (by simp [hv, hm])

/-- Concrete instantiation of the C10 theorem on a fresh client: the
handler 5 buffered for method ev survives off(ev) (which removes every
active ev handler) and is live on the connection after start. -/
theorem C10_off_leaves_pending_buffer_intact_witness :
    (Hub.hubOff (Hub.hubOn {} "ev" 5) "ev" none).pendingMethods =
      (Hub.hubOn ({} : Hub.HubClient) "ev" 5).pendingMethods ∧
    5 ∈ Hub.handlersAt (Hub.start (Hub.hubOff (Hub.hubOn {} "ev" 5) "ev" none) "c").2 "ev" := by
  have H := C10_off_leaves_pending_buffer_intact {} "ev" "ev" 5 none "c" rfl rfl
  exact ⟨H.1 _, H.2.2.2⟩

namespace Acquisition

/-!
The acquisition protocol of getHubClient (src/builder/get-hub-client.ts),
for one fixed address, together with the lock utility (makeLock) and the
parts of HubClient.start it calls. The two module-level maps are projected
at that address (the source only ever accesses them at the key address, so
distinct addresses are independent): instances becomes an optional client
id brokered by a client table, pendingInstances an optional lock id into a
lock table.

Execution is cooperative and single-threaded: a caller runs atomically
from one await to the next. The machine therefore has one step per
synchronous segment of the source, with suspension points at
  - return await lockInstance.lock                 (line 119),
  - await instance.untilConnected()                (line 148),
  - await instance.start()                         (line 165),
  - await instance.start(startParameters)          (line 229),
and a separate transport step that completes a pending connection start
with success or failure. The recursive retry call at line 173 runs the
body again from the top; the model re-enters the entry segment there,
which only adds scheduling points and so over-approximates the possible
interleavings. untilConnected is modelled at its contract — the caller
resumes once the client is connected (its listener internals are examined
separately in the Hub namespace).
-/

/-- The transport connection state of a client's connection, as far as the
acquisition code observes it. failed marks a connection whose start
rejected (the awaiting caller resumes into its catch/throw path). -/
inductive ConnSt where
  | connecting
  | connected
  | failed
  | disconnected
deriving DecidableEq, Repr

/-- One HubClient as the acquisition code sees it: whether a connection
object exists and its state, and the _initialized flag consulted by
HubClient.start (which, faithfully to the source, is never set by start
itself; it is true only after an onReconnected event). -/
structure ClientC where
  conn : Option ConnSt
  initialized : Bool
deriving DecidableEq, Repr

/-- The global state: the two module-level maps projected at the fixed
address, the lock table (none = still locked; some v = unlocked with
client v — getHubClient never calls unlockWithError, so locks only ever
resolve), the client table (ids are table indices), and built counting
every transport connection object ever constructed for this address. -/
structure Global where
  instances : Option Nat
  pendingInstances : Option Nat
  locks : List (Option Nat)
  clients : List ClientC
  built : Nat
deriving DecidableEq, Repr

/-- The connection state of client c. -/
def connOf (g : Global) (c : Nat) : Option ConnSt :=
  match g.clients[c]? with
  | some cl => cl.conn
  | none => none

/-- instance.isConnecting (hub-client lines 136-141: state Connecting or
Reconnecting; the machine does not produce Reconnecting). -/
def isConnecting (g : Global) (c : Nat) : Bool :=
  connOf g c == some .connecting

/-- instance.isConnected (hub-client lines 147-149). -/
def isConnected (g : Global) (c : Nat) : Bool :=
  connOf g c == some .connected

/-- Replace client c's connection state. -/
def setConn (g : Global) (c : Nat) (st : Option ConnSt) : Global :=
  match g.clients[c]? with
  | some cl => { g with clients := g.clients.set c { cl with conn := st } }
  | none => g

/-- lockInstance?.unlock(instance): resolve the lock with the client
unless it is already unlocked (makeLock's isUnlocked guard), or do nothing
when no lock is at hand. -/
def unlockOpt (g : Global) (li : Option Nat) (v : Nat) : Global :=
  match li with
  | none => g
  | some l =>
    match g.locks[l]? with
    | some none => { g with locks := g.locks.set l (some v) }
    | _ => g

/-- The settled outcome of a getHubClient promise: resolved with a client
id, or rejected with a propagated error. -/
inductive AcqResult where
  | ok (c : Nat)
  | error
deriving DecidableEq, Repr

/-- The program counter of one getHubClient activation: entry is the start
of the body; the awaiting states are its four suspension points, each
remembering the locals it still needs (the client id and the lockInstance
variable); done carries the settled result of the returned promise
(ok client, or error for a propagated rejection). -/
inductive PC where
  | entry
  | awaitingLock (l : Nat)
  | awaitingUntil (c : Nat) (li : Option Nat)
  | awaitingStartNew (c : Nat) (li : Option Nat)
  | awaitingStartReset (c : Nat) (li : Option Nat)
  | done (r : AcqResult)
deriving DecidableEq, Repr

/-- One caller: its program counter and its (normalized) parameters. The
object form defaults start, cache and resetIfNotConnected to true; the
string form of the recursive retry has cache = true as well. -/
structure Caller where
  pc : PC
  cache : Bool
  start : Bool
  reset : Bool
deriving DecidableEq, Repr

/-- Lines 178-188 and the return at line 188: if cache, re-set the
instance, unlock the lockInstance with it, delete the pending entry; then
return the instance. Runs synchronously. -/
def contCache (g : Global) (k : Caller) (li : Option Nat) (c : Nat) :
    Global × Caller :=
  if k.cache then
    let g1 := { g with instances := some c }
    let g2 := unlockOpt g1 li c
    let g3 := { g2 with pendingInstances := none }
    (g3, { k with pc := .done (.ok c) })
  else (g, { k with pc := .done (.ok c) })

/-- Lines 136-237, from the instance lookup to the first suspension point
(or to the synchronous return). li is the lockInstance variable. -/
def entryCont (g : Global) (k : Caller) (li : Option Nat) :
    Global × Caller :=
  match g.instances with
  | some c =>
    -- lines 138-156: a cached instance exists
    if isConnecting g c then
      -- line 148: await instance.untilConnected()
      (g, { k with pc := .awaitingUntil c li })
    else if k.reset && !(isConnected g c) then
      -- line 165: await instance.start() — the synchronous prefix of
      -- HubClient.start runs now: if _initialized, it resolves false
      -- without building; otherwise it builds a fresh connection
      -- (hub-client lines 186-200) and starts the transport (line 206)
      match g.clients[c]? with
      | some cl =>
        if cl.initialized then (g, { k with pc := .awaitingStartReset c li })
        else
          let g1 := setConn g c (some .connecting)
          let g2 := { g1 with built := g1.built + 1 }
          (g2, { k with pc := .awaitingStartReset c li })
      | none => (g, { k with pc := .awaitingStartReset c li })
    else contCache g k li c
  | none =>
    -- lines 195-237: construct a new HubClient
    let c := g.clients.length
    let g1 := { g with clients := g.clients ++ [⟨none, false⟩] }
    let g2 := if k.cache then { g1 with instances := some c } else g1
    if !k.start then
      -- lines 205-212: unlock, delete the pending entry, return
      let g3 := unlockOpt g2 li c
      let g4 := { g3 with pendingInstances := none }
      (g4, { k with pc := .done (.ok c) })
    else
      -- line 229: await instance.start(startParameters) — the fresh
      -- client is not initialized, so a connection is built and started
      let g3 := setConn g2 c (some .connecting)
      let g4 := { g3 with built := g3.built + 1 }
      (g4, { k with pc := .awaitingStartNew c li })

/-- One atomic step of a caller, if it is runnable: the synchronous
segment of getHubClient from its current suspension point to the next.
none means the caller is blocked (or finished). -/
def stepCaller (g : Global) (k : Caller) : Option (Global × Caller) :=
  match k.pc with
  | .entry =>
    -- line 111: let lockInstance = pendingInstances.get(address)
    let li := g.pendingInstances
    if k.cache then
      match li with
      | some l =>
        -- line 119: return await lockInstance.lock
        some (g, { k with pc := .awaitingLock l })
      | none =>
        -- lines 122-123: register a fresh lock before any await
        let l := g.locks.length
        let g1 := { g with locks := g.locks ++ [none], pendingInstances := some l }
        some (entryCont g1 k (some l))
    else some (entryCont g k li)
  | .awaitingLock l =>
    -- resumes when the lock resolves; its value is the result
    match g.locks[l]? with
    | some (some v) => some (g, { k with pc := .done (.ok v) })
    | _ => none
  | .awaitingUntil c li =>
    -- resumes once the instance is connected (untilConnected's contract);
    -- lines 154-155: unlock the lockInstance and return the instance —
    -- the pending entry is NOT deleted on this path
    if isConnected g c then some (unlockOpt g li c, { k with pc := .done (.ok c) })
    else none
  | .awaitingStartNew c li =>
    match connOf g c with
    | some .connecting => none
    | some .failed =>
      -- the start promise rejected: the error propagates out of
      -- getHubClient — no unlock, no pending cleanup (lines 229-237 are
      -- not guarded by any catch)
      some (g, { k with pc := .done .error })
    | _ =>
      -- lines 235-237: unlock, delete the pending entry, return
      let g1 := unlockOpt g li c
      let g2 := { g1 with pendingInstances := none }
      some (g2, { k with pc := .done (.ok c) })
  | .awaitingStartReset c li =>
    match connOf g c with
    | some .connecting => none
    | some .failed =>
      -- lines 171-174: catch — evict the cache entry and retry
      -- recursively with the string form (cache defaults to true there);
      -- the retry re-enters the body at the top
      let g1 := { g with instances := none }
      some (g1, { k with pc := .entry, cache := true })
    | _ => some (contCache g k li c)
  | .done _ => none

/-- The transport completes a pending connection start for client c, with
success (Connected) or failure (the awaited start() rejects). -/
def transportStep (g : Global) (c : Nat) (ok : Bool) : Option Global :=
  match connOf g c with
  | some .connecting => some (setConn g c (some (if ok then .connected else .failed)))
  | _ => none

/-- A configuration: the global state and the callers. -/
structure Config where
  g : Global
  callers : List Caller
deriving DecidableEq, Repr

/-- Run caller i if runnable (used to build concrete executions). -/
def stepCallerAt (cfg : Config) (i : Nat) : Config :=
  match cfg.callers[i]? with
  | some k =>
    match stepCaller cfg.g k with
    | some (g', k') => ⟨g', cfg.callers.set i k'⟩
    | none => cfg
  | none => cfg

/-- Run a transport completion if one is pending (used to build concrete
executions). -/
def stepTransportAt (cfg : Config) (c : Nat) (ok : Bool) : Config :=
  match transportStep cfg.g c ok with
  | some g' => ⟨g', cfg.callers⟩
  | none => cfg

/-- One step of the whole system: any runnable caller, or any transport
completion with either outcome. -/
inductive StepA : Config → Config → Prop where
  | caller (cfg : Config) (i : Nat) (k : Caller) (g' : Global) (k' : Caller)
      (hk : cfg.callers[i]? = some k) (hs : stepCaller cfg.g k = some (g', k')) :
      StepA cfg ⟨g', cfg.callers.set i k'⟩
  | transport (cfg : Config) (c : Nat) (ok : Bool) (g' : Global)
      (ht : transportStep cfg.g c ok = some g') : StepA cfg ⟨g', cfg.callers⟩

/-- Reachability under arbitrary steps. -/
inductive ReachA : Config → Config → Prop where
  | refl (c : Config) : ReachA c c
  | tail (a b c : Config) : ReachA a b → StepA b c → ReachA a c

/-- One step of the system in which every transport start succeeds. -/
inductive StepOk : Config → Config → Prop where
  | caller (cfg : Config) (i : Nat) (k : Caller) (g' : Global) (k' : Caller)
      (hk : cfg.callers[i]? = some k) (hs : stepCaller cfg.g k = some (g', k')) :
      StepOk cfg ⟨g', cfg.callers.set i k'⟩
  | transport (cfg : Config) (c : Nat) (g' : Global)
      (ht : transportStep cfg.g c true = some g') : StepOk cfg ⟨g', cfg.callers⟩

/-- Reachability when every transport start succeeds. -/
inductive ReachOk : Config → Config → Prop where
  | refl (c : Config) : ReachOk c c
  | tail (a b c : Config) : ReachOk a b → StepOk b c → ReachOk a c

/-- The initial configuration for the C1 race: empty global state and n
concurrent getHubClient callers using the object form with its defaults
(start, cache and resetIfNotConnected all true). -/
def initConfig (n : Nat) : Config :=
  ⟨⟨none, none, [], [], 0⟩, List.replicate n ⟨.entry, true, true, true⟩⟩

end Acquisition

namespace Acquisition

/-- C3 run: a cached client for the address exists and is mid-connect
(state Connecting), no acquisition is in flight, and one cached
getHubClient call arrives. -/
def c3init : Config :=
  ⟨⟨some 0, none, [], [⟨some .connecting, false⟩], 1⟩, [⟨.entry, true, true, true⟩]⟩

/-- C3 run after the caller's entry segment: it registered lock 0 and
suspended awaiting untilConnected. -/
def c3a : Config := stepCallerAt c3init 0

/-- C3 run after the pending connect completes. -/
def c3b : Config := stepTransportAt c3a 0 true

/-- C3 run after the caller resumes: it unlocks its lock and returns the
instance. -/
def c3c : Config := stepCallerAt c3b 0

/-- Helper for building concrete step derivations from the runner
functions. -/
theorem stepA_caller_at (cfg : Config) (i : Nat) (k : Caller) (gk : Global × Caller)
    (hk : cfg.callers[i]? = some k) (hs : stepCaller cfg.g k = some gk) :
    StepA cfg ⟨gk.1, cfg.callers.set i gk.2⟩ := by
  obtain ⟨g', k'⟩ := gk
  exact .caller cfg i k g' k' hk hs

end Acquisition

/-- C3: the mid-connect await path does not clear the in-flight lock
entry. A cached call that finds the instance mid-connect registers its
lock, awaits untilConnected, unlocks and resolves with the instance — but
the pending-locks map still holds the entry (now pointing at a resolved
lock) after the call has resolved, contradicting the claim that every
completion path removes the entry before resolving. -/
theorem C3_mid_connect_path_keeps_pending_lock :
    Acquisition.ReachA Acquisition.c3init Acquisition.c3c ∧
    Acquisition.c3c.callers =
      [⟨.done (.ok 0), true, true, true⟩] ∧
    Acquisition.c3c.g.pendingInstances = some 0 ∧
    Acquisition.c3c.g.locks = [some 0] := by
  refine ⟨?_, rfl, rfl, rfl⟩
  refine .tail _ Acquisition.c3b _
    (.tail _ Acquisition.c3a _
      (.tail _ Acquisition.c3init _ (.refl _) ?_) ?_) ?_
  · exact Acquisition.stepA_caller_at Acquisition.c3init 0 _ _ rfl rfl
  · exact .transport Acquisition.c3a 0 true _ rfl
  · exact Acquisition.stepA_caller_at Acquisition.c3b 0 _ _ rfl rfl

namespace Acquisition

/-- C4 run: a cached client for the address exists and is disconnected, no
acquisition is in flight, and one cached getHubClient call with
resetIfNotConnected arrives. -/
def c4init : Config :=
  ⟨⟨some 0, none, [], [⟨some .disconnected, false⟩], 1⟩, [⟨.entry, true, true, true⟩]⟩

/-- C4 run after the caller's entry segment: it registered lock 0 and is
restarting the cached client. -/
def c4a : Config := stepCallerAt c4init 0

/-- C4 run after the restart fails. -/
def c4b : Config := stepTransportAt c4a 0 false

/-- C4 run after the caller resumes into the catch: it evicts the cache
entry and re-enters the body as the recursive retry. -/
def c4c : Config := stepCallerAt c4b 0

/-- C4 run after the retry's entry segment: it finds the pending entry —
its own, still-unresolved lock 0 — and awaits it. -/
def c4d : Config := stepCallerAt c4c 0

end Acquisition

/-- C4: when restarting a cached, disconnected client fails with caching
enabled, the recursive retry finds the pending entry registered by the
very same call and awaits that lock, which nothing can ever resolve: the
final configuration has the caller blocked on its own lock, and no step —
by the caller or the transport — is possible, so the returned promise
never settles. The claim says the error would propagate to the caller
after one retry rather than hanging. -/
theorem C4_retry_deadlocks_on_own_lock :
    Acquisition.ReachA Acquisition.c4init Acquisition.c4d ∧
    Acquisition.c4d.callers = [⟨.awaitingLock 0, true, true, true⟩] ∧
    Acquisition.c4d.g.locks = [none] ∧
    Acquisition.c4d.g.pendingInstances = some 0 ∧
    (∀ cfg', ¬ Acquisition.StepA Acquisition.c4d cfg') := by
  refine ⟨?_, rfl, rfl, rfl, ?_⟩
  · refine .tail _ Acquisition.c4c _
      (.tail _ Acquisition.c4b _
        (.tail _ Acquisition.c4a _
          (.tail _ Acquisition.c4init _ (.refl _) ?_) ?_) ?_) ?_
    · exact Acquisition.stepA_caller_at Acquisition.c4init 0 _ _ rfl rfl
    · exact .transport Acquisition.c4a 0 false _ rfl
    · exact Acquisition.stepA_caller_at Acquisition.c4b 0 _ _ rfl rfl
    · exact Acquisition.stepA_caller_at Acquisition.c4c 0 _ _ rfl rfl
  · intro cfg' h
    cases h with
    | caller i k g' k' hk hs =>
      cases i with
      | zero =>
        have hkk := Option.some.inj
          ((show Acquisition.c4d.callers[0]? =
              some (⟨Acquisition.PC.awaitingLock 0, true, true, true⟩ :
                Acquisition.Caller) from rfl).symm.trans hk)
        subst hkk
        exact Option.noConfusion
          ((show Acquisition.stepCaller Acquisition.c4d.g
              ⟨Acquisition.PC.awaitingLock 0, true, true, true⟩ = none from
            rfl).symm.trans hs)
      | succ n =>
        exact Option.noConfusion
          ((show Acquisition.c4d.callers[n + 1]? = none from rfl).symm.trans hk)
    | transport c ok g' ht =>
      cases c with
      | zero =>
        exact Option.noConfusion
          ((show Acquisition.transportStep Acquisition.c4d.g 0 ok = none from
            rfl).symm.trans ht)
      | succ n =>
        exact Option.noConfusion
          ((show Acquisition.transportStep Acquisition.c4d.g (n + 1) ok = none from
            rfl).symm.trans ht)

namespace Acquisition

/-- Whether a caller is suspended in the new-instance start await. -/
def isAwaitNew : PC → Bool
  | .awaitingStartNew _ _ => true
  | _ => false

/-- Per-caller invariant of the C1 race (all transports succeed, every
caller uses the cached object form, the initial state is empty): the
mid-connect and reset paths are unreachable; a caller awaiting the lock
holds a valid lock index; the constructing caller holds the registered,
still-locked pending lock and the single constructed client; a finished
caller has resolved with client 0. -/
def PcInv (g : Global) : PC → Prop
  | .entry => True
  | .awaitingLock l => l < g.locks.length
  | .awaitingUntil _ _ => False
  | .awaitingStartReset _ _ => False
  | .awaitingStartNew c li =>
      c = 0 ∧ g.clients.length = 1 ∧
        ∃ (l : Nat), li = some l ∧ g.pendingInstances = some l ∧
          g.locks[l]? = some none
  | .done r => r = .ok 0 ∧ g.clients.length = 1

/-- The global invariant of the C1 race. -/
structure Inv (cfg : Config) : Prop where
  params : ∀ k ∈ cfg.callers, k.cache = true ∧ k.start = true ∧ k.reset = true
  lenLe : cfg.g.clients.length ≤ 1
  builtEq : cfg.g.built = cfg.g.clients.length
  instEq : cfg.g.instances = if cfg.g.clients.length = 0 then none else some 0
  locksRes : ∀ (l v : Nat), cfg.g.locks[l]? = some (some v) →
    v = 0 ∧ cfg.g.clients.length = 1
  pendingUnres : ∀ (l : Nat), cfg.g.pendingInstances = some l →
    cfg.g.locks[l]? = some none
  connOk : ∀ (c : Nat) (cl : ClientC), cfg.g.clients[c]? = some cl →
    cl.conn = some .connecting ∨ cl.conn = some .connected
  connectingPending : ∀ cl, cfg.g.clients[0]? = some cl →
    cl.conn = some .connecting → cfg.g.pendingInstances.isSome = true
  emptyFresh : cfg.g.clients.length = 0 →
    cfg.g.locks = [] ∧ cfg.g.pendingInstances = none
  newCount : cfg.callers.countP (fun k => isAwaitNew k.pc) ≤ 1
  pcs : ∀ k ∈ cfg.callers, PcInv cfg.g k.pc

/-- countP across a positional update. -/
theorem countP_set_eq {α : Type} (l : List α) (i : Nat) (a b : α) (p : α → Bool)
    (h : l[i]? = some a) :
    (l.set i b).countP p + (if p a then 1 else 0) =
      l.countP p + (if p b then 1 else 0) := by
  induction l generalizing i with
  | nil => simp at h
  | cons x xs ih =>
    cases i with
    | zero =>
      simp only [List.getElem?_cons_zero, Option.some.injEq] at h
      subst h
      simp only [List.set_cons_zero, List.countP_cons]
      omega
    | succ n =>
      simp only [List.getElem?_cons_succ] at h
      simp only [List.set_cons_succ, List.countP_cons]
      have := ih n h
      omega

/-- PcInv only inspects the locks, the pending entry and the number of
clients. -/
theorem PcInv_of_eqs {g g' : Global} (pc : PC)
    (hlock : g'.locks = g.locks) (hpend : g'.pendingInstances = g.pendingInstances)
    (hlen : g'.clients.length = g.clients.length) (h : PcInv g pc) : PcInv g' pc := by
  cases pc <;> simp_all [PcInv]

/-- The initial configuration satisfies the invariant. -/
theorem inv_init (n : Nat) : Inv (initConfig n) := by
  refine
    { params := ?_, lenLe := by simp [initConfig], builtEq := rfl,
      instEq := by simp [initConfig], locksRes := ?_, pendingUnres := ?_,
      connOk := ?_, connectingPending := ?_, emptyFresh := fun _ => ⟨rfl, rfl⟩,
      newCount := ?_, pcs := ?_ }
  · intro k hk
    have := List.eq_of_mem_replicate hk
    subst this
    exact ⟨rfl, rfl, rfl⟩
  · intro l v h
    simp [initConfig] at h
  · intro l h
    simp [initConfig] at h
  · intro c cl h
    simp [initConfig] at h
  · intro cl h
    simp [initConfig] at h
  · have : (initConfig n).callers.countP (fun k => isAwaitNew k.pc) = 0 := by
      refine List.countP_eq_zero.mpr ?_
      intro k hk
      have := List.eq_of_mem_replicate hk
      subst this
      simp [isAwaitNew]
    omega
  · intro k hk
    have := List.eq_of_mem_replicate hk
    subst this
    trivial

end Acquisition

namespace Acquisition

/-- A positional lookup hit is a member. -/
theorem mem_of_getElem {α : Type} {l : List α} {i : Nat} {a : α}
    (h : l[i]? = some a) : a ∈ l := by
  induction l generalizing i with
  | nil => simp at h
  | cons x xs ih =>
    cases i with
    | zero =>
      simp only [List.getElem?_cons_zero, Option.some.injEq] at h
      subst h
      exact List.mem_cons_self x xs
    | succ n =>
      simp only [List.getElem?_cons_succ] at h
      exact List.mem_cons_of_mem _ (ih h)

/-- A pointwise property survives a positional update whose new element
satisfies it. -/
theorem forall_mem_set {α : Type} {P : α → Prop} {l : List α} {i : Nat} {b : α}
    (hall : ∀ a ∈ l, P a) (hb : P b) : ∀ a ∈ l.set i b, P a := by
  intro a ha
  rcases List.mem_or_eq_of_mem_set ha with h | rfl
  exacts [hall _ h, hb]

/-- Preservation of the invariant by a successful transport completion. -/
theorem inv_step_transport {cfg : Config} (hI : Inv cfg) (c : Nat) (g' : Global)
    (ht : transportStep cfg.g c true = some g') : Inv ⟨g', cfg.callers⟩ := by
  unfold transportStep at ht
  cases hc : connOf cfg.g c with
  | none => rw [hc] at ht; cases ht
  | some st =>
    cases st with
    | connected => rw [hc] at ht; cases ht
    | failed => rw [hc] at ht; cases ht
    | disconnected => rw [hc] at ht; cases ht
    | connecting =>
      rw [hc] at ht
      have hg' : g' = setConn cfg.g c (some .connected) := (Option.some.inj ht).symm
      subst hg'
      have hcl : ∃ cl, cfg.g.clients[c]? = some cl ∧ cl.conn = some .connecting := by
        unfold connOf at hc
        cases hcc : cfg.g.clients[c]? with
        | none => rw [hcc] at hc; cases hc
        | some cl => rw [hcc] at hc; exact ⟨cl, rfl, hc⟩
      obtain ⟨cl, hcc, hconn⟩ := hcl
      have hset : setConn cfg.g c (some .connected) =
          { cfg.g with
            clients := cfg.g.clients.set c { cl with conn := some .connected } } := by
        unfold setConn
        rw [hcc]
      rw [hset]
      have hlen : (cfg.g.clients.set c { cl with conn := some .connected }).length =
          cfg.g.clients.length := List.length_set ..
      refine
        { params := hI.params, lenLe := by simpa [hlen] using hI.lenLe,
          builtEq := by simpa [hlen] using hI.builtEq,
          instEq := by simpa [hlen] using hI.instEq,
          locksRes := ?_, pendingUnres := hI.pendingUnres, connOk := ?_,
          connectingPending := ?_, emptyFresh := ?_, newCount := hI.newCount,
          pcs := ?_ }
      · intro l v h
        have := hI.locksRes l v h
        simpa [hlen] using this
      · intro c' cl' h
        obtain ⟨hlt, -⟩ := List.getElem?_eq_some.mp hcc
        by_cases hcc' : c' = c
        · subst hcc'
          rw [List.getElem?_set_self hlt] at h
          obtain rfl := (Option.some.inj h).symm
          exact Or.inr rfl
        · rw [List.getElem?_set_ne (fun hx => hcc' hx.symm)] at h
          exact hI.connOk c' cl' h
      · intro cl' h hcl'
        obtain ⟨hlt, -⟩ := List.getElem?_eq_some.mp hcc
        by_cases h0 : c = 0
        · subst h0
          rw [List.getElem?_set_self hlt] at h
          obtain rfl := (Option.some.inj h).symm
          simp at hcl'
        · rw [List.getElem?_set_ne h0] at h
          exact hI.connectingPending cl' h hcl'
      · intro h
        rw [hlen] at h
        exact hI.emptyFresh h
      · intro k hk
        exact PcInv_of_eqs (g := cfg.g) k.pc rfl rfl hlen (hI.pcs k hk)

end Acquisition

namespace Acquisition

/-- Setting the freshly appended slot of a one-longer list. -/
theorem set_concat_length {α : Type} (l : List α) (a b : α) :
    (l ++ [a]).set l.length b = l ++ [b] := by
  induction l with
  | nil => rfl
  | cons x xs ih => simp [List.set, ih]

/-- With no pending entry, no caller sits in the new-instance await. -/
theorem newCount_zero_of_pending_none {cfg : Config} (hI : Inv cfg)
    (hpend : cfg.g.pendingInstances = none) :
    cfg.callers.countP (fun k => isAwaitNew k.pc) = 0 := by
  refine List.countP_eq_zero.mpr ?_
  intro k hk
  have hp := hI.pcs k hk
  cases hpcc : k.pc with
  | awaitingStartNew c li =>
    rw [hpcc] at hp
    obtain ⟨-, -, l, -, hpl, -⟩ := hp
    rw [hpend] at hpl
    cases hpl
  | entry => simp [isAwaitNew]
  | awaitingLock l => simp [isAwaitNew]
  | awaitingUntil c li => simp [isAwaitNew]
  | awaitingStartReset c li => simp [isAwaitNew]
  | done r => simp [isAwaitNew]

/-- A configuration of length one has a client at index zero. -/
theorem client_zero_of_len_one {g : Global} (h : g.clients.length = 1) :
    ∃ cl, g.clients[0]? = some cl := by
  cases hcl : g.clients[0]? with
  | none =>
    rw [List.getElem?_eq_none_iff] at hcl
    omega
  | some cl => exact ⟨cl, rfl⟩

/-- Preservation by a lock-await resumption. -/
theorem inv_step_awaitingLock {cfg : Config} (hI : Inv cfg) (i : Nat) (k : Caller)
    (g' : Global) (k' : Caller) (l : Nat)
    (hk : cfg.callers[i]? = some k) (hpc : k.pc = .awaitingLock l)
    (hs : stepCaller cfg.g k = some (g', k')) :
    Inv ⟨g', cfg.callers.set i k'⟩ := by
  have hmem := mem_of_getElem hk
  have hparam := hI.params _ hmem
  obtain ⟨pc, kc, ks, kr⟩ := k
  simp only at hpc
  subst hpc
  simp only [stepCaller] at hs
  cases hlv : cfg.g.locks[l]? with
  | none => rw [hlv] at hs; cases hs
  | some o =>
    cases o with
    | none => rw [hlv] at hs; cases hs
    | some v =>
      rw [hlv] at hs
      have hs2 : some ((cfg.g, (⟨.done (.ok v), kc, ks, kr⟩ : Caller))) =
          some (g', k') := hs
      injection hs2 with h1
      injection h1 with hg hk2
      subst hg
      subst hk2
      obtain ⟨hv0, hlen1⟩ := hI.locksRes l v hlv
      subst hv0
      refine
        { params := forall_mem_set hI.params hparam,
          lenLe := hI.lenLe, builtEq := hI.builtEq, instEq := hI.instEq,
          locksRes := hI.locksRes, pendingUnres := hI.pendingUnres,
          connOk := hI.connOk, connectingPending := hI.connectingPending,
          emptyFresh := hI.emptyFresh, newCount := ?_, pcs := ?_ }
      · have hc := countP_set_eq cfg.callers i _
          (⟨.done (.ok 0), kc, ks, kr⟩ : Caller) (fun k => isAwaitNew k.pc) hk
        have e1 : (fun k : Caller => isAwaitNew k.pc)
            (⟨.awaitingLock l, kc, ks, kr⟩ : Caller) = false := rfl
        have e2 : (fun k : Caller => isAwaitNew k.pc)
            (⟨.done (.ok 0), kc, ks, kr⟩ : Caller) = false := rfl
        rw [e1, e2] at hc
        simp only [Bool.false_eq_true, if_false] at hc
        have := hI.newCount
        show (cfg.callers.set i
          (⟨.done (.ok 0), kc, ks, kr⟩ : Caller)).countP (fun k => isAwaitNew k.pc) ≤ 1
        omega
      · refine forall_mem_set hI.pcs ?_
        exact ⟨rfl, hlen1⟩

/-- Preservation by any step of a caller in the mid-connect or reset
await: the invariant says no such caller exists. -/
theorem inv_step_unreachable {cfg : Config} (hI : Inv cfg) (i : Nat) (k : Caller)
    (hk : cfg.callers[i]? = some k)
    (hpc : (∃ c li, k.pc = .awaitingUntil c li) ∨
      (∃ c li, k.pc = .awaitingStartReset c li)) : False := by
  have hp := hI.pcs _ (mem_of_getElem hk)
  rcases hpc with ⟨c, li, h⟩ | ⟨c, li, h⟩ <;> rw [h] at hp <;> exact hp

end Acquisition

namespace Acquisition

/-- Preservation by the constructing caller's resumption after its start
await. -/
theorem inv_step_awaitingNew {cfg : Config} (hI : Inv cfg) (i : Nat) (k : Caller)
    (g' : Global) (k' : Caller) (c : Nat) (li : Option Nat)
    (hk : cfg.callers[i]? = some k) (hpc : k.pc = .awaitingStartNew c li)
    (hs : stepCaller cfg.g k = some (g', k')) :
    Inv ⟨g', cfg.callers.set i k'⟩ := by
  have hmem := mem_of_getElem hk
  have hparam := hI.params _ hmem
  have hpi := hI.pcs _ hmem
  rw [hpc] at hpi
  obtain ⟨hc0, hlen1, l, hli, hpend, hlock⟩ := hpi
  subst hc0
  subst hli
  obtain ⟨pc, kc, ks, kr⟩ := k
  simp only at hpc
  subst hpc
  simp only [stepCaller] at hs
  obtain ⟨cl, hcl⟩ := client_zero_of_len_one hlen1
  have hconn0 : connOf cfg.g 0 = cl.conn := by
    unfold connOf
    rw [hcl]
  have hconn := hI.connOk 0 cl hcl
  have hconn2 : cl.conn = some .connected := by
    rcases hconn with h | h
    · exfalso
      rw [hconn0, h] at hs
      have hs3 : (none : Option (Global × Caller)) = some (g', k') := hs
      exact Option.noConfusion hs3
    · exact h
  rw [hconn0, hconn2] at hs
  have hunlock : unlockOpt cfg.g (some l) 0 =
      { cfg.g with locks := cfg.g.locks.set l (some 0) } := by
    have hu : unlockOpt cfg.g (some l) 0 =
        (match cfg.g.locks[l]? with
         | some none => { cfg.g with locks := cfg.g.locks.set l (some 0) }
         | _ => cfg.g) := rfl
    rw [hu, hlock]
  have hs2 :
      some (({ (unlockOpt cfg.g (some l) 0) with pendingInstances := none } : Global),
        (⟨.done (.ok 0), kc, ks, kr⟩ : Caller)) = some (g', k') := hs
  rw [hunlock] at hs2
  injection hs2 with h1
  injection h1 with hg hk2
  subst hg
  subst hk2
  have hllt : l < cfg.g.locks.length := by
    rcases List.getElem?_eq_some.mp hlock with ⟨h, -⟩
    exact h
  have hczero : (cfg.callers.set i
      (⟨.done (.ok 0), kc, ks, kr⟩ : Caller)).countP (fun k => isAwaitNew k.pc) = 0 := by
    have hc := countP_set_eq cfg.callers i _
      (⟨.done (.ok 0), kc, ks, kr⟩ : Caller) (fun k => isAwaitNew k.pc) hk
    have e1 : (fun k : Caller => isAwaitNew k.pc)
        (⟨.awaitingStartNew 0 (some l), kc, ks, kr⟩ : Caller) = true := rfl
    have e2 : (fun k : Caller => isAwaitNew k.pc)
        (⟨.done (.ok 0), kc, ks, kr⟩ : Caller) = false := rfl
    rw [e1, e2] at hc
    simp only [Bool.false_eq_true, if_false, if_pos] at hc
    have := hI.newCount
    omega
  refine
    { params := forall_mem_set hI.params hparam,
      lenLe := hI.lenLe, builtEq := hI.builtEq, instEq := hI.instEq,
      locksRes := ?_, pendingUnres := ?_,
      connOk := hI.connOk, connectingPending := ?_, emptyFresh := ?_,
      newCount := by rw [hczero]; omega, pcs := ?_ }
  · intro l₂ v h
    by_cases hl₂ : l₂ = l
    · subst hl₂
      rw [List.getElem?_set_self hllt] at h
      exact ⟨(Option.some.inj (Option.some.inj h)).symm, hlen1⟩
    · rw [List.getElem?_set_ne (fun hx => hl₂ hx.symm)] at h
      exact hI.locksRes l₂ v h
  · intro l₂ h
    exact Option.noConfusion h
  · intro cl₂ h₂ hcc₂
    have hcl₂ : cl = cl₂ := Option.some.inj (hcl.symm.trans h₂)
    rw [← hcl₂, hconn2] at hcc₂
    cases hcc₂
  · intro h0
    have h0' : cfg.g.clients.length = 0 := h0
    exact absurd (h0'.symm.trans hlen1) (by decide)
  · intro k₂ h₂
    rcases List.mem_or_eq_of_mem_set h₂ with hold | rfl
    · have old := hI.pcs k₂ hold
      cases hpc₂ : k₂.pc with
      | entry => trivial
      | awaitingLock l₂ =>
        rw [hpc₂] at old
        simp only [PcInv] at old ⊢
        rw [List.length_set]
        exact old
      | awaitingUntil c₂ li₂ => rw [hpc₂] at old; exact old.elim
      | awaitingStartReset c₂ li₂ => rw [hpc₂] at old; exact old.elim
      | done r => rw [hpc₂] at old; exact old
      | awaitingStartNew c₂ li₂ =>
        exfalso
        have hpos : 0 < (cfg.callers.set i
            (⟨.done (.ok 0), kc, ks, kr⟩ : Caller)).countP
              (fun k => isAwaitNew k.pc) :=
          List.countP_pos_iff.mpr ⟨k₂, h₂, by simp [isAwaitNew, hpc₂]⟩
        rw [hczero] at hpos
        exact Nat.lt_irrefl 0 hpos
    · exact ⟨rfl, hlen1⟩

end Acquisition

namespace Acquisition

/-- entryCont on a cached, connected instance with caching on reduces to
the cache-refresh continuation. -/
theorem entryCont_cached_connected {g : Global} {k : Caller} {li : Option Nat}
    {cl : ClientC} (hinst : g.instances = some 0) (hcl : g.clients[0]? = some cl)
    (hconn : cl.conn = some ConnSt.connected) :
    entryCont g k li = contCache g k li 0 := by
  have hic : isConnecting g 0 = false := by
    simp [isConnecting, connOf, hcl, hconn]
  have hice : isConnected g 0 = true := by
    simp [isConnected, connOf, hcl, hconn]
  unfold entryCont
  rw [hinst]
  simp [hic, hice]

/-- contCache with caching on and a still-locked lockInstance resolves the
lock, refreshes the cache entry and clears the pending entry. -/
theorem contCache_cache_true {g : Global} {k : Caller} {l : Nat} {c : Nat}
    (hcache : k.cache = true) (hlock : g.locks[l]? = some none) :
    contCache g k (some l) c =
      ({ g with
          instances := some c, locks := g.locks.set l (some c),
          pendingInstances := none }, { k with pc := .done (.ok c) }) := by
  unfold contCache
  rw [hcache]
  have hu : unlockOpt { g with instances := some c } (some l) c =
      { g with
          instances := some c, locks := g.locks.set l (some c) } := by
    have h0 : unlockOpt { g with instances := some c } (some l) c =
        (match g.locks[l]? with
         | some none =>
           { g with
               instances := some c, locks := g.locks.set l (some c) }
         | _ => { g with instances := some c }) := rfl
    rw [h0, hlock]
  simp only [if_pos, hu]

/-- entryCont with no cached instance, caching and start on: construct the
client, cache it, build and start its connection. -/
theorem entryCont_construct {g : Global} {k : Caller} {li : Option Nat}
    (hinst : g.instances = none) (hcache : k.cache = true) (hstart : k.start = true) :
    entryCont g k li =
      ({ g with
          clients := g.clients ++ [⟨some ConnSt.connecting, false⟩],
          instances := some g.clients.length, built := g.built + 1 },
       { k with pc := .awaitingStartNew g.clients.length li }) := by
  unfold entryCont
  rw [hinst]
  have hsc : setConn
      { g with
          clients := g.clients ++ [(⟨none, false⟩ : ClientC)],
          instances := some g.clients.length } g.clients.length
      (some ConnSt.connecting) =
      { g with
          clients := g.clients ++ [⟨some ConnSt.connecting, false⟩],
          instances := some g.clients.length } := by
    have h0 : setConn
        { g with
            clients := g.clients ++ [(⟨none, false⟩ : ClientC)],
            instances := some g.clients.length } g.clients.length
        (some ConnSt.connecting) =
        (match (g.clients ++ [(⟨none, false⟩ : ClientC)])[g.clients.length]? with
         | some cl =>
           { g with
               clients := (g.clients ++ [(⟨none, false⟩ : ClientC)]).set
                 g.clients.length { cl with conn := some ConnSt.connecting },
               instances := some g.clients.length }
         | none =>
           { g with
               clients := g.clients ++ [(⟨none, false⟩ : ClientC)],
               instances := some g.clients.length }) := rfl
    rw [h0, List.getElem?_concat_length]
    simp [set_concat_length]
  simp [hcache, hstart, hsc]

end Acquisition

namespace Acquisition

/-- Preservation by a caller's entry segment. -/
theorem inv_step_entry {cfg : Config} (hI : Inv cfg) (i : Nat) (k : Caller)
    (g' : Global) (k' : Caller)
    (hk : cfg.callers[i]? = some k) (hpc : k.pc = .entry)
    (hs : stepCaller cfg.g k = some (g', k')) :
    Inv ⟨g', cfg.callers.set i k'⟩ := by
  have hmem := mem_of_getElem hk
  obtain ⟨hkc, hks, hkr⟩ := hI.params _ hmem
  obtain ⟨pc, kc, ks, kr⟩ := k
  simp only at hpc hkc hks hkr
  subst hpc
  subst hkc
  subst hks
  subst hkr
  simp only [stepCaller] at hs
  rw [if_pos trivial] at hs
  cases hpend : cfg.g.pendingInstances with
  | some l =>
    rw [hpend] at hs
    have hs2 : some ((cfg.g, (⟨.awaitingLock l, true, true, true⟩ : Caller))) =
        some (g', k') := hs
    injection hs2 with h1
    injection h1 with hg hk2
    subst hg
    subst hk2
    obtain ⟨hlt, -⟩ := List.getElem?_eq_some.mp (hI.pendingUnres l hpend)
    refine
      { params := forall_mem_set hI.params ⟨rfl, rfl, rfl⟩,
        lenLe := hI.lenLe, builtEq := hI.builtEq, instEq := hI.instEq,
        locksRes := hI.locksRes, pendingUnres := hI.pendingUnres,
        connOk := hI.connOk, connectingPending := hI.connectingPending,
        emptyFresh := hI.emptyFresh, newCount := ?_, pcs := ?_ }
    · have hc := countP_set_eq cfg.callers i _
        (⟨.awaitingLock l, true, true, true⟩ : Caller) (fun k => isAwaitNew k.pc) hk
      have e1 : (fun k : Caller => isAwaitNew k.pc)
          (⟨.entry, true, true, true⟩ : Caller) = false := rfl
      have e2 : (fun k : Caller => isAwaitNew k.pc)
          (⟨.awaitingLock l, true, true, true⟩ : Caller) = false := rfl
      rw [e1, e2] at hc
      simp only [Bool.false_eq_true, if_false] at hc
      have := hI.newCount
      show (cfg.callers.set i
        (⟨.awaitingLock l, true, true, true⟩ : Caller)).countP
          (fun k => isAwaitNew k.pc) ≤ 1
      omega
    · exact forall_mem_set hI.pcs hlt
  | none =>
    rw [hpend] at hs
    have hczero := newCount_zero_of_pending_none hI hpend
    cases hinst : cfg.g.instances with
    | some c =>
      have hlen1 : cfg.g.clients.length = 1 := by
        have hie := hI.instEq
        rw [hinst] at hie
        by_cases h0 : cfg.g.clients.length = 0
        · rw [if_pos h0] at hie
          cases hie
        · have := hI.lenLe
          omega
      have hc0 : c = 0 := by
        have hie := hI.instEq
        rw [hinst, if_neg (by omega)] at hie
        exact Option.some.inj hie
      subst hc0
      obtain ⟨cl, hcl⟩ := client_zero_of_len_one hlen1
      have hconn2 : cl.conn = some ConnSt.connected := by
        rcases hI.connOk 0 cl hcl with h | h
        · exfalso
          have h2 := hI.connectingPending cl hcl h
          rw [hpend] at h2
          have h3 : false = true := h2
          exact Bool.noConfusion h3
        · exact h
      have hs2 : some (entryCont
          ({ cfg.g with
              locks := cfg.g.locks ++ [none],
              pendingInstances := some cfg.g.locks.length } : Global)
          (⟨.entry, true, true, true⟩ : Caller) (some cfg.g.locks.length)) =
          some (g', k') := hs
      have hG1inst : ({ cfg.g with
          locks := cfg.g.locks ++ [none],
          pendingInstances := some cfg.g.locks.length } : Global).instances =
          some 0 := hinst
      have hG1cl : ({ cfg.g with
          locks := cfg.g.locks ++ [none],
          pendingInstances := some cfg.g.locks.length } : Global).clients[0]? =
          some cl := hcl
      have hG1lock : ({ cfg.g with
          locks := cfg.g.locks ++ [none],
          pendingInstances := some cfg.g.locks.length } : Global).locks[
            cfg.g.locks.length]? = some none := by
        show (cfg.g.locks ++ [none])[cfg.g.locks.length]? = some (none : Option Nat)
        exact List.getElem?_concat_length ..
      rw [entryCont_cached_connected hG1inst hG1cl hconn2,
        contCache_cache_true rfl hG1lock] at hs2
      have hs3 : some (({ cfg.g with
          instances := some 0,
          locks := (cfg.g.locks ++ [none]).set cfg.g.locks.length (some 0),
          pendingInstances := none } : Global),
          (⟨.done (.ok 0), true, true, true⟩ : Caller)) = some (g', k') := hs2
      rw [set_concat_length] at hs3
      injection hs3 with h1
      injection h1 with hg hk2
      subst hg
      subst hk2
      refine
        { params := forall_mem_set hI.params ⟨rfl, rfl, rfl⟩,
          lenLe := hI.lenLe, builtEq := hI.builtEq, instEq := ?_,
          locksRes := ?_, pendingUnres := ?_, connOk := hI.connOk,
          connectingPending := ?_, emptyFresh := ?_, newCount := ?_, pcs := ?_ }
      · show (some 0 : Option Nat) =
          if cfg.g.clients.length = 0 then none else some 0
        rw [if_neg (by omega)]
      · intro l₂ v h
        by_cases hlt : l₂ < cfg.g.locks.length
        · rw [List.getElem?_append_left hlt] at h
          exact hI.locksRes l₂ v h
        · by_cases heq : l₂ = cfg.g.locks.length
          · subst heq
            rw [List.getElem?_concat_length] at h
            exact ⟨(Option.some.inj (Option.some.inj h)).symm, hlen1⟩
          · have hge : (cfg.g.locks ++ [some 0]).length ≤ l₂ := by
              simp only [List.length_append, List.length_cons, List.length_nil]
              omega
            rw [List.getElem?_eq_none hge] at h
            cases h
      · intro l₂ h
        exact Option.noConfusion h
      · intro cl₂ h₂ hcc₂
        have hcl₂ : cl = cl₂ := Option.some.inj (hcl.symm.trans h₂)
        rw [← hcl₂, hconn2] at hcc₂
        cases hcc₂
      · intro h0
        have h0' : cfg.g.clients.length = 0 := h0
        exact absurd (h0'.symm.trans hlen1) (by decide)
      · have hc := countP_set_eq cfg.callers i _
          (⟨.done (.ok 0), true, true, true⟩ : Caller) (fun k => isAwaitNew k.pc) hk
        have e1 : (fun k : Caller => isAwaitNew k.pc)
            (⟨.entry, true, true, true⟩ : Caller) = false := rfl
        have e2 : (fun k : Caller => isAwaitNew k.pc)
            (⟨.done (.ok 0), true, true, true⟩ : Caller) = false := rfl
        rw [e1, e2] at hc
        simp only [Bool.false_eq_true, if_false] at hc
        show (cfg.callers.set i
          (⟨.done (.ok 0), true, true, true⟩ : Caller)).countP
            (fun k => isAwaitNew k.pc) ≤ 1
        omega
      · intro k₂ h₂
        rcases List.mem_or_eq_of_mem_set h₂ with hold | rfl
        · have old := hI.pcs k₂ hold
          cases hpc₂ : k₂.pc with
          | entry => trivial
          | awaitingLock l₂ =>
            rw [hpc₂] at old
            simp only [PcInv] at old ⊢
            simp only [List.length_append, List.length_cons, List.length_nil]
            omega
          | awaitingUntil c₂ li₂ => rw [hpc₂] at old; exact old.elim
          | awaitingStartReset c₂ li₂ => rw [hpc₂] at old; exact old.elim
          | done r => rw [hpc₂] at old; exact old
          | awaitingStartNew c₂ li₂ =>
            rw [hpc₂] at old
            obtain ⟨-, -, l₂, -, hpl, -⟩ := old
            rw [hpend] at hpl
            cases hpl
        · exact ⟨rfl, hlen1⟩
    | none =>
      have hlen0 : cfg.g.clients.length = 0 := by
        have hie := hI.instEq
        rw [hinst] at hie
        by_contra h0
        rw [if_neg h0] at hie
        cases hie
      obtain ⟨hlocks0, -⟩ := hI.emptyFresh hlen0
      have hbuilt0 : cfg.g.built = 0 := by rw [hI.builtEq, hlen0]
      have hs2 : some (entryCont
          ({ cfg.g with
              locks := cfg.g.locks ++ [none],
              pendingInstances := some cfg.g.locks.length } : Global)
          (⟨.entry, true, true, true⟩ : Caller) (some cfg.g.locks.length)) =
          some (g', k') := hs
      have hG1inst : ({ cfg.g with
          locks := cfg.g.locks ++ [none],
          pendingInstances := some cfg.g.locks.length } : Global).instances =
          none := hinst
      rw [entryCont_construct hG1inst rfl rfl] at hs2
      have hs3 : some (({ cfg.g with
          clients := cfg.g.clients ++ [⟨some ConnSt.connecting, false⟩],
          instances := some cfg.g.clients.length,
          built := cfg.g.built + 1,
          locks := cfg.g.locks ++ [none],
          pendingInstances := some cfg.g.locks.length } : Global),
          (⟨.awaitingStartNew cfg.g.clients.length (some cfg.g.locks.length),
            true, true, true⟩ : Caller)) = some (g', k') := hs2
      injection hs3 with h1
      injection h1 with hg hk2
      subst hg
      subst hk2
      refine
        { params := forall_mem_set hI.params ⟨rfl, rfl, rfl⟩,
          lenLe := ?_, builtEq := ?_, instEq := ?_,
          locksRes := ?_, pendingUnres := ?_, connOk := ?_,
          connectingPending := ?_, emptyFresh := ?_, newCount := ?_, pcs := ?_ }
      · show (cfg.g.clients ++ [(⟨some ConnSt.connecting, false⟩ : ClientC)]).length ≤ 1
        simp [hlen0]
      · show cfg.g.built + 1 =
          (cfg.g.clients ++ [(⟨some ConnSt.connecting, false⟩ : ClientC)]).length
        simp [hbuilt0, hlen0]
      · show (some cfg.g.clients.length : Option Nat) =
          if (cfg.g.clients ++
            [(⟨some ConnSt.connecting, false⟩ : ClientC)]).length = 0
          then none else some 0
        rw [if_neg (by simp)]
        rw [hlen0]
      · intro l₂ v h
        have h2 : (cfg.g.locks ++ [none])[l₂]? = some (some v) := h
        rw [hlocks0] at h2
        cases l₂ with
        | zero => simp at h2
        | succ n => simp at h2
      · intro l₂ h
        have h2 : some cfg.g.locks.length = some l₂ := h
        obtain rfl := (Option.some.inj h2).symm
        show (cfg.g.locks ++ [none])[cfg.g.locks.length]? = some none
        exact List.getElem?_concat_length ..
      · intro c₂ cl₂ h
        have h2 : (cfg.g.clients ++
            [(⟨some ConnSt.connecting, false⟩ : ClientC)])[c₂]? = some cl₂ := h
        rw [List.length_eq_zero.mp hlen0] at h2
        cases c₂ with
        | zero =>
          simp only [List.nil_append, List.getElem?_cons_zero,
            Option.some.injEq] at h2
          subst h2
          exact Or.inl rfl
        | succ n => simp at h2
      · intro cl₂ h₂ hcc₂
        rfl
      · intro h0
        have h0' : (cfg.g.clients ++
            [(⟨some ConnSt.connecting, false⟩ : ClientC)]).length = 0 := h0
        simp at h0'
      · have hc := countP_set_eq cfg.callers i _
          (⟨.awaitingStartNew cfg.g.clients.length (some cfg.g.locks.length),
            true, true, true⟩ : Caller) (fun k => isAwaitNew k.pc) hk
        have e1 : (fun k : Caller => isAwaitNew k.pc)
            (⟨.entry, true, true, true⟩ : Caller) = false := rfl
        have e2 : (fun k : Caller => isAwaitNew k.pc)
            (⟨.awaitingStartNew cfg.g.clients.length (some cfg.g.locks.length),
              true, true, true⟩ : Caller) = true := rfl
        rw [e1, e2] at hc
        simp only [Bool.false_eq_true, if_false, if_pos] at hc
        show (cfg.callers.set i
          (⟨.awaitingStartNew cfg.g.clients.length (some cfg.g.locks.length),
            true, true, true⟩ : Caller)).countP (fun k => isAwaitNew k.pc) ≤ 1
        omega
      · intro k₂ h₂
        rcases List.mem_or_eq_of_mem_set h₂ with hold | rfl
        · have old := hI.pcs k₂ hold
          cases hpc₂ : k₂.pc with
          | entry => trivial
          | awaitingLock l₂ =>
            rw [hpc₂] at old
            simp only [PcInv] at old
            rw [hlocks0] at old
            simp at old
          | awaitingUntil c₂ li₂ => rw [hpc₂] at old; exact old.elim
          | awaitingStartReset c₂ li₂ => rw [hpc₂] at old; exact old.elim
          | done r =>
            rw [hpc₂] at old
            exact absurd (hlen0.symm.trans old.2) (by decide)
          | awaitingStartNew c₂ li₂ =>
            rw [hpc₂] at old
            obtain ⟨-, -, l₂, -, hpl, -⟩ := old
            rw [hpend] at hpl
            cases hpl
        · refine ⟨hlen0, ?_, cfg.g.locks.length, rfl, rfl, ?_⟩
          · show (cfg.g.clients ++
              [(⟨some ConnSt.connecting, false⟩ : ClientC)]).length = 1
            simp [hlen0]
          · show (cfg.g.locks ++ [none])[cfg.g.locks.length]? = some none
            exact List.getElem?_concat_length ..

end Acquisition

namespace Acquisition

/-- The invariant is preserved by every success-transport step. -/
theorem inv_stepOk {cfg cfg' : Config} (hI : Inv cfg) (hs : StepOk cfg cfg') :
    Inv cfg' := by
  cases hs with
  | caller i k g' k' hk hstep =>
    cases hpc : k.pc with
    | entry => exact inv_step_entry hI i k g' k' hk hpc hstep
    | awaitingLock l => exact inv_step_awaitingLock hI i k g' k' l hk hpc hstep
    | awaitingUntil c li =>
      exact (inv_step_unreachable hI i k hk (Or.inl ⟨c, li, hpc⟩)).elim
    | awaitingStartReset c li =>
      exact (inv_step_unreachable hI i k hk (Or.inr ⟨c, li, hpc⟩)).elim
    | awaitingStartNew c li =>
      exact inv_step_awaitingNew hI i k g' k' c li hk hpc hstep
    | done r =>
      exfalso
      obtain ⟨pc, kc, ks, kr⟩ := k
      simp only at hpc
      subst hpc
      have hnone : stepCaller cfg.g ⟨.done r, kc, ks, kr⟩ = none := rfl
      rw [hnone] at hstep
      cases hstep
  | transport c g' ht => exact inv_step_transport hI c g' ht

/-- The invariant holds in every configuration reachable from the C1 race
under success-only transports. -/
theorem inv_reachOk (n : Nat) (cfg : Config) (h : ReachOk (initConfig n) cfg) :
    Inv cfg := by
  induction h with
  | refl => exact inv_init n
  | tail b c hr hs ih => exact inv_stepOk ih hs

/-- Helper for building concrete success-step derivations from the runner
functions. -/
theorem stepOk_caller_at (cfg : Config) (i : Nat) (k : Caller)
    (gk : Global × Caller) (hk : cfg.callers[i]? = some k)
    (hs : stepCaller cfg.g k = some gk) :
    StepOk cfg ⟨gk.1, cfg.callers.set i gk.2⟩ := by
  obtain ⟨g', k'⟩ := gk
  exact .caller cfg i k g' k' hk hs

/-- The fully resolved two-caller race used as the C1 witness run:
caller 0 registers the lock and constructs, caller 1 awaits the lock, the
transport connects, caller 0 resolves and caller 1 receives the client. -/
def c1w1 : Config := stepCallerAt (initConfig 2) 0

/-- C1 witness run, step 2. -/
def c1w2 : Config := stepCallerAt c1w1 1

/-- C1 witness run, step 3. -/
def c1w3 : Config := stepTransportAt c1w2 0 true

/-- C1 witness run, step 4. -/
def c1w4 : Config := stepCallerAt c1w3 0

/-- C1 witness run, step 5. -/
def c1w5 : Config := stepCallerAt c1w4 1

end Acquisition

/-- C1: in the concurrent acquisition race — any number of cached
getHubClient callers for the same address starting from an empty registry,
with every transport start succeeding — every reachable configuration has
at most one HubClient ever constructed, at most one underlying connection
ever built, and every caller that has resolved obtained the same client
(client 0): a later caller always finds the in-flight lock, awaits it and
returns its result. -/
theorem C1_single_construction_shared_client (n : Nat)
    (cfg : Acquisition.Config)
    (h : Acquisition.ReachOk (Acquisition.initConfig n) cfg) :
    cfg.g.clients.length ≤ 1 ∧ cfg.g.built ≤ 1 ∧
    (∀ k ∈ cfg.callers, ∀ r, k.pc = Acquisition.PC.done r →
      r = Acquisition.AcqResult.ok 0) := by
  have hI := Acquisition.inv_reachOk n cfg h
  refine ⟨hI.lenLe, ?_, ?_⟩
  · rw [hI.builtEq]
    exact hI.lenLe
  · intro k hk r hr
    have hp := hI.pcs k hk
    rw [hr] at hp
    exact hp.1

/-- Concrete instantiation of the C1 theorem on a completed two-caller
race: both callers are done, at most one client and one connection were
constructed, and each resolved caller got client 0. -/
theorem C1_single_construction_shared_client_witness :
    Acquisition.c1w5.g.clients.length ≤ 1 ∧ Acquisition.c1w5.g.built ≤ 1 ∧
    (∀ k ∈ Acquisition.c1w5.callers, ∀ r, k.pc = Acquisition.PC.done r →
      r = Acquisition.AcqResult.ok 0) := by
  refine C1_single_construction_shared_client 2 Acquisition.c1w5 ?_
  refine .tail _ Acquisition.c1w4 _
    (.tail _ Acquisition.c1w3 _
      (.tail _ Acquisition.c1w2 _
        (.tail _ Acquisition.c1w1 _
          (.tail _ (Acquisition.initConfig 2) _ (.refl _) ?_) ?_) ?_) ?_) ?_
  · exact Acquisition.stepOk_caller_at (Acquisition.initConfig 2) 0 _ _ rfl rfl
  · exact Acquisition.stepOk_caller_at Acquisition.c1w1 1 _ _ rfl rfl
  · exact .transport Acquisition.c1w2 0 _ rfl
  · exact Acquisition.stepOk_caller_at Acquisition.c1w3 0 _ _ rfl rfl
  · exact Acquisition.stepOk_caller_at Acquisition.c1w4 1 _ _ rfl rfl
